import Mathlib

/-!
Verification of the AMoD (Autonomous Mobility-on-Demand) environment in
`src/envs/amod_env.py`: a shallow embedding of the `AMoD` class (its
`__init__`, `match_step_simple`, `pax_step`, `reb_step` and `reset` methods)
together with the parts of the Python standard library the code leans on
(`random.Random(42).shuffle`, i.e. MT19937 plus Fisher-Yates).

Quantities that the Python code keeps as floats (vehicle counts after
fractional actions, rewards, prices, ledger entries) are modelled as `ℚ`;
times, regions and counters are `Nat`.  Dict-of-dict ledgers with
`defaultdict(float)` leaves are modelled as total functions defaulting to 0,
which agrees with the code: every read the code performs on an absent key
either goes through a membership test first or materialises the default 0.
-/

set_option maxRecDepth 10000

/-! ## CPython MT19937 seeded with 42

`match_step_simple` shuffles each station's incoming passenger list with
`random.Random(42).shuffle(...)`, a fresh seed-42 generator at every call.
The definitions below reproduce CPython's `init_by_array([42])` seeding,
the twist, tempering, `getrandbits`, `_randbelow` and `random.shuffle`
(Fisher-Yates from the top index down).  The `example`s at the end of the
section pin the embedding to the documented MT19937 output stream. -/

def M32 : Nat := 4294967296

/-- Propositionally just `v :: l`; the dead case split makes kernel reduction
evaluate `v` to a numeral before the cell is built, keeping evaluation of the
624-step seeding recurrences stack-friendly. -/
def fcons (v : Nat) (l : List Nat) : List Nat := if 0 < v then v :: l else v :: l

/-- Tail of `init_genrand`: mt[i] = (1812433253 * (mt[i-1] xor (mt[i-1] >> 30)) + i) mod 2^32. -/
def initGenrandAux (prev : Nat) (i : Nat) (fuel : Nat) : List Nat :=
  match fuel with
  | 0 => []
  | fuel+1 =>
    let v := (1812433253 * (prev ^^^ (prev >>> 30)) + i) % M32
    fcons v (initGenrandAux v (i+1) fuel)

def initGenrand (s : Nat) : List Nat :=
  s % M32 :: initGenrandAux (s % M32) 1 623

/-- First mixing pass of `init_by_array` with key `[42]` (key index is always 0). -/
def ibaPass1Aux (prev : Nat) (rest : List Nat) : List Nat :=
  match rest with
  | [] => []
  | x :: xs =>
    let v := ((x ^^^ ((prev ^^^ (prev >>> 30)) * 1664525 % M32)) + 42) % M32
    fcons v (ibaPass1Aux v xs)

/-- Second mixing pass of `init_by_array`; `i` is the running state index. -/
def ibaPass2Aux (prev : Nat) (i : Nat) (rest : List Nat) : List Nat :=
  match rest with
  | [] => []
  | x :: xs =>
    let v := ((x ^^^ ((prev ^^^ (prev >>> 30)) * 1566083941 % M32)) + (M32 - i % M32)) % M32
    fcons v (ibaPass2Aux v (i+1) xs)

/-- CPython `init_by_array` with key `[42]`: after `init_genrand(19650218)`,
pass 1 runs 624 times starting at index 1 (it rewrites positions 1..623, then
mt[0] := mt[623] and position 1 once more); pass 2 runs 623 times starting at
index 2 (positions 2..623, then mt[0] := mt[623] and position 1, with i back
at 1); finally mt[0] := 2^31. -/
def mt42Init : List Nat :=
  let a := initGenrand 19650218
  let tail1 := ibaPass1Aux (a.headD 0) (a.drop 1)
  let last1 := tail1.getD 622 0
  let p1 := ((tail1.headD 0 ^^^ ((last1 ^^^ (last1 >>> 30)) * 1664525 % M32)) + 42) % M32
  let afterL1 : List Nat := last1 :: p1 :: tail1.drop 1
  let tail2 := ibaPass2Aux p1 2 (afterL1.drop 2)
  let last2 := tail2.getD 621 0
  let q1 := ((p1 ^^^ ((last2 ^^^ (last2 >>> 30)) * 1566083941 % M32)) + (M32 - 1)) % M32
  (2147483648 : Nat) :: q1 :: tail2

/-- One word of the MT twist: y is the top bit of `cur` glued to the low 31
bits of `next`; the result xors `far` with y >> 1 and the twist matrix. -/
def twistVal (cur next far : Nat) : Nat :=
  let y := (cur / 2147483648 * 2147483648) + (next % 2147483648)
  (far ^^^ (y >>> 1)) ^^^ (if y % 2 = 1 then 2567483615 else 0)

def zip3TwistF (cs ns fs : List Nat) : List Nat :=
  match cs, ns, fs with
  | c :: cs, n :: ns, f :: fs => fcons (twistVal c n f) (zip3TwistF cs ns fs)
  | _, _, _ => []

/-- The in-place MT twist, written in dependency layers: position kk reads
mt[kk] (not yet rewritten), mt[(kk+1) % 624] (not yet rewritten except
kk = 623, which reads the new mt[0]) and mt[(kk+397) % 624] (the original
value for kk < 227, the rewritten value for kk ≥ 227). -/
def twistList (old : List Nat) : List Nat :=
  let cA := zip3TwistF (old.take 227) (old.drop 1) (old.drop 397)
  let cB1 := zip3TwistF (old.drop 227 |>.take 227) (old.drop 228) cA
  let cB2 := zip3TwistF (old.drop 454 |>.take 169) (old.drop 455) cB1
  let lastv := twistVal (old.getD 623 0) (cA.headD 0) (cB1.getD 169 0)
  cA ++ cB1 ++ cB2 ++ [lastv]

def temper (y : Nat) : Nat :=
  let y := y ^^^ (y >>> 11)
  let y := y ^^^ ((y <<< 7) % M32 &&& 2636928640)
  let y := y ^^^ ((y <<< 15) % M32 &&& 4022730752)
  y ^^^ (y >>> 18)

/-- The first 624 outputs of `random.Random(42)`: one twist block, tempered.
Every shuffle in the code consumes well under 624 draws, so one block is all
the generator semantics the environment can observe. -/
def mt42Words : List Nat := (twistList mt42Init).map temper

def mtStream42 (n : Nat) : Nat := mt42Words.getD n 0

/-- `getrandbits(k)` for 0 < k ≤ 32: the top k bits of the next 32-bit word. -/
def getrandbits (k idx : Nat) : Nat := mtStream42 idx >>> (32 - k)

/-- `n.bit_length()`: the least k with n < 2^k. -/
def bitLen (n : Nat) : Nat :=
  (List.range 64).foldl (fun acc k => if 2^k ≤ n then k+1 else acc) 0

/-- `Random._randbelow(n)`: draw `bit_length n` bits, retry while the draw is
≥ n.  Returns the value and the next unused stream index.  The rejection loop
is fuel-bounded (it terminates after finitely many draws on every trace the
environment can produce). -/
def randbelow (n idx fuel : Nat) : Nat × Nat :=
  match fuel with
  | 0 => (0, idx)
  | fuel+1 =>
    let r := getrandbits (bitLen n) idx
    if r < n then (r, idx+1) else randbelow n (idx+1) fuel

def listSwap {α : Type} (l : List α) (i j : Nat) : List α :=
  match l.get? i, l.get? j with
  | some a, some b => (l.set i b).set j a
  | _, _ => l

/-- `random.shuffle`: for i = |l|-1 down to 1, swap l[i] with l[_randbelow (i+1)]. -/
def fyAux {α : Type} (l : List α) (i idx : Nat) : List α :=
  match i with
  | 0 => l
  | i+1 =>
    let jr := randbelow (i+2) idx 100
    fyAux (listSwap l (i+1) jr.1) i jr.2

/-- `random.Random(42).shuffle(l)` — a fresh seed-42 generator each call, as
in `amod_env.py` line 108. -/
def pyShuffle42 {α : Type} (l : List α) : List α := fyAux l (l.length - 1) 0

/-! ## Data model

`Passenger` is modelled from the spec (its class lives in
`src/envs/structures.py`, which is not part of the sources): origin,
destination, request time, price, wait counter and matched flag.  The
`enter`/`match`/`unmatched_update` lifecycle is modelled from the spec:
fresh passengers enter; `match` consumes one acceptance draw (the draw
outcomes are an oracle stream `ω`, abstracting the `exp(-wait/4)` coin);
`unmatched_update` increments the wait counter and reports abandonment once
it reaches MAX_WAIT_STEP = 12. -/

structure Passenger where
  origin : Nat
  destination : Nat
  request_time : Nat
  price : ℚ
  wait_time : Nat
  matched : Bool
deriving DecidableEq, Repr

/-- MAX_WAIT_STEP, modelled from the spec (12 steps). -/
def maxWaitStep : Nat := 12

/-- Pointwise update of a one-argument map. -/
def upd1 {α : Type} (f : Nat → α) (a : Nat) (v : α) : Nat → α :=
  fun x => if x = a then v else f x

/-- Pointwise update of a two-argument map (dict-of-dict ledger). -/
def upd2 {α : Type} (f : Nat → Nat → α) (a b : Nat) (v : α) : Nat → Nat → α :=
  fun x y => if x = a ∧ y = b then v else f x y

/-- Pointwise update of an edge-keyed ledger. -/
def updE {α : Type} (f : Nat × Nat → Nat → α) (e : Nat × Nat) (b : Nat) (v : α) :
    Nat × Nat → Nat → α :=
  fun x y => if x = e ∧ y = b then v else f x y

/-- Membership in the directed graph `G = nx.complete_graph(N).to_directed()`:
all ordered pairs of distinct regions. -/
def isGEdge (N : Nat) (e : Nat × Nat) : Prop :=
  e.1 ≠ e.2 ∧ e.1 < N ∧ e.2 < N

instance (N : Nat) (e : Nat × Nat) : Decidable (isGEdge N e) :=
  inferInstanceAs (Decidable (e.1 ≠ e.2 ∧ e.1 < N ∧ e.2 < N))

/-- One trip attribute tuple `(origin, destination, time, demand, price)`. -/
structure Trip where
  o : Nat
  d : Nat
  t : Nat
  dem : Nat
  p : ℚ
deriving DecidableEq, Repr

/-- The `Scenario` object as the environment consumes it (synthetic-grid mode,
`fix_price = True`): region count, horizon, step width, travel-time tables,
initial accumulations, fixed prices, the trip attributes generated at
construction, and the edge-attribute dict of the scenario graph `G` (no
`time` attribute exists until `AMoD.__init__` writes one). -/
structure Scenario where
  n : Nat
  tf : Nat
  tstep : Nat
  demandTime : Nat → Nat → Nat → Nat
  rebTime : Nat → Nat → Nat → Nat
  accInit : Nat → Nat
  p : Nat × Nat → ℚ
  tripAttr : List Trip
  gEdgeTimeAttr : Nat × Nat → Option Nat

/-- The environment state: one field per attribute of the `AMoD` object that
the claims touch.  `rngIdx` is the position in the acceptance-draw stream
consumed by `Passenger.match`; `npIdx` is the position in the global numpy
draw stream consumed by `Scenario.get_random_demand`. -/
structure Env where
  nregion : Nat
  mode : Nat
  tf : Nat
  beta : ℚ
  demandTime : Nat → Nat → Nat → Nat
  rebTime : Nat → Nat → Nat → Nat
  accInit : Nat → Nat
  scenP : Nat × Nat → ℚ
  time : Nat
  acc : Nat → Nat → ℚ
  dacc : Nat → Nat → ℚ
  rebFlow : Nat × Nat → Nat → ℚ
  paxFlow : Nat × Nat → Nat → ℚ
  queue : Nat → List Passenger
  passengers : Nat → Nat → List Passenger
  demand : Nat × Nat → Nat → ℚ
  hasDemand : Nat × Nat → Nat → Bool
  price : Nat × Nat → Nat → ℚ
  servedDemand : Nat × Nat → Nat → ℚ
  unservedDemand : Nat × Nat → Nat → ℚ
  depDemand : Nat → Nat → ℚ
  arrDemand : Nat → Nat → ℚ
  regionDemand : Nat → Nat → ℚ
  edgeTimeAttr : Nat × Nat → Option Nat
  arrivals : Nat
  rngIdx : Nat
  npIdx : Nat
  reward : ℚ
  ext_reward : Nat → ℚ
  info_revenue : ℚ
  info_served_demand : ℚ
  info_unserved_demand : ℚ
  info_rebalancing_cost : ℚ
  info_operating_cost : ℚ
  info_served_waiting : ℚ

/-- The observation tuple `(acc, time, dacc, demand)`. -/
def Env.obs (s : Env) :
    (Nat → Nat → ℚ) × Nat × (Nat → Nat → ℚ) × (Nat × Nat → Nat → ℚ) :=
  (s.acc, s.time, s.dacc, s.demand)

/-! ## match_step_simple (amod_env.py lines 84-156)

One region at a time: materialize the step's incoming passengers destination
by destination, re-shuffling the accumulated incoming list with a fresh
seed-42 generator after each destination batch (line 108 sits inside the
`for j in self.G[n]` loop); all fresh passengers enter the queue behind the
previously queued ones; then walk the queue in order, matching while
vehicles remain, incrementing wait counters otherwise, and dropping matched
or abandoning passengers.  The price-elastic branch (`price is not None`) is
not modelled; the walk below reads the demand and price ledgers directly,
which is the `price=None` behaviour.  Passengers are materialized from the
spec (`generate_passenger` lives outside the sources): `d` identical units
with wait 0; fractional demand (reachable only through the unmodelled
price-elastic branch) is floored. -/

def genPassengers (o d t : Nat) (dem : ℚ) (p : ℚ) : List Passenger :=
  List.replicate (Int.toNat ⌊dem⌋) ⟨o, d, t, p, 0, false⟩

/-- networkx adjacency `G[n]` for the directed complete graph: ascending
region order with `n` removed. -/
def adjacency (N n : Nat) : List Nat := (List.range N).filter (fun j => j ≠ n)

/-- The destination loop of lines 98-108: extend `passenger[n][t]` with the
new batch for destination `j`, then shuffle the whole accumulated incoming
list with `random.Random(42)`. -/
def batchDest (n t : Nat) (e : Env) (j : Nat) : Env :=
  let newp := genPassengers n j t (e.demand (n, j) t) (e.price (n, j) t)
  let lst := pyShuffle42 (e.passengers n t ++ newp)
  { e with passengers := upd2 e.passengers n t lst,
           arrivals := e.arrivals + newp.length }

def regionBatch (t n : Nat) (e : Env) : Env :=
  (adjacency e.nregion n).foldl (batchDest n t) e

/-- Queue-walk fold state: the running vehicle count `accCurrent`, the
environment, and the passengers kept in the queue. -/
structure WalkSt where
  accCur : ℚ
  env : Env
  kept : List Passenger

/-- `unmatched_update` (modelled from the spec): bump the wait counter; on
reaching MAX_WAIT_STEP the passenger leaves and is recorded one unit of
unserved demand at the *current* step `t` (line 135 indexes by `t`). -/
def walkUnmatched (t : Nat) (st : WalkSt) (pax : Passenger) : WalkSt :=
  let pax2 := { pax with wait_time := pax.wait_time + 1 }
  if maxWaitStep ≤ pax2.wait_time then
    { st with env := { st.env with
        unservedDemand := updE st.env.unservedDemand (pax.origin, pax.destination) t
          (st.env.unservedDemand (pax.origin, pax.destination) t + 1),
        info_unserved_demand := st.env.info_unserved_demand + 1 } }
  else { st with kept := st.kept ++ [pax2] }

/-- Lines 115-144: one queued passenger.  While vehicles remain, `pax.match`
consumes one acceptance draw; on acceptance the vehicle departs into
`paxFlow`/`dacc`, demand is marked served and reward/diagnostics accrue
(note line 125: the per-region auxiliary reward adds `max(0, demandTime*beta)`,
not the price).  Otherwise (and when no vehicle remains, without consuming a
draw) the passenger takes an unmatched update. -/
def walkPax (ω : Nat → Bool) (t n : Nat) (st : WalkSt) (pax : Passenger) : WalkSt :=
  if st.accCur ≠ 0 then
    let accept := ω st.env.rngIdx
    let stA := { st with env := { st.env with rngIdx := st.env.rngIdx + 1 } }
    if accept then
      let o := pax.origin
      let d := pax.destination
      let dT := stA.env.demandTime o d t
      { accCur := stA.accCur - 1,
        env := { stA.env with
          paxFlow := updE stA.env.paxFlow (o, d) (t + dT) (stA.env.paxFlow (o, d) (t + dT) + 1),
          dacc := upd2 stA.env.dacc d (t + dT) (stA.env.dacc d (t + dT) + 1),
          servedDemand := updE stA.env.servedDemand (o, d) t (stA.env.servedDemand (o, d) t + 1),
          reward := stA.env.reward + pax.price - (dT : ℚ) * stA.env.beta,
          ext_reward := upd1 stA.env.ext_reward n
            (stA.env.ext_reward n + max 0 ((dT : ℚ) * stA.env.beta)),
          info_revenue := stA.env.info_revenue + pax.price,
          info_served_demand := stA.env.info_served_demand + 1,
          info_operating_cost := stA.env.info_operating_cost + (dT : ℚ) * stA.env.beta,
          info_served_waiting := stA.env.info_served_waiting + (pax.wait_time : ℚ) },
        kept := stA.kept }
    else walkUnmatched t stA pax
  else walkUnmatched t st pax

/-- Lines 94-148 for one region: build the incoming batch, append it behind
the existing queue, walk the queue, store the surviving queue, and write
`acc[n][t+1] := accCurrent`. -/
def matchRegion (ω : Nat → Bool) (t : Nat) (e : Env) (n : Nat) : Env :=
  let e1 := regionBatch t n e
  let qcur := e1.queue n ++ e1.passengers n t
  let e2 := { e1 with queue := upd1 e1.queue n qcur }
  let stF := qcur.foldl (walkPax ω t n) ⟨e1.acc n t, e2, []⟩
  { stF.env with
      queue := upd1 stF.env.queue n stF.kept,
      acc := upd2 stF.env.acc n (t + 1) stF.accCur }

def match_step_simple (ω : Nat → Bool) (s : Env) : Env :=
  (List.range s.nregion).foldl (matchRegion ω s.time)
    { s with reward := 0, ext_reward := fun _ => 0 }

/-- The `done` flag of lines 151-155 (mode 0/2: False; mode 1: horizon test). -/
def matchDone (s : Env) : Bool :=
  if s.mode = 1 then s.tf == s.time + 1 else false

/-- Line 156: the returned triple (state, clipped reward, done). -/
def match_step_return (ω : Nat → Bool) (s : Env) : Env × ℚ × Bool :=
  let s2 := match_step_simple ω s
  (s2, max 0 s2.reward, matchDone s)

/-! ## pax_step (amod_env.py lines 202-237) -/

/-- Lines 217-232, one edge: skipped when the pair carries no demand entry at
`t` or the action is below 1e-3; otherwise the action is clipped to the
available vehicles and applied.  (`=`, not `+=`: `servedDemand` and `paxFlow`
entries are overwritten.) -/
def paxEdge (t : Nat) (s : Env) (e : Nat × Nat) (a : ℚ) : Env :=
  if s.hasDemand e t = false ∨ a < 1 / 1000 then s
  else
    let i := e.1
    let j := e.2
    let dT := s.demandTime i j t
    let act := min (s.acc i (t + 1)) a
    { s with
      servedDemand := updE s.servedDemand e t act,
      paxFlow := updE s.paxFlow e (t + dT) act,
      info_operating_cost := s.info_operating_cost + (dT : ℚ) * s.beta * act,
      acc := upd2 s.acc i (t + 1) (s.acc i (t + 1) - act),
      info_served_demand := s.info_served_demand + act,
      dacc := upd2 s.dacc j (t + dT) (s.dacc j (t + dT) + act),
      reward := s.reward + act * (s.price e t - (dT : ℚ) * s.beta),
      ext_reward := upd1 s.ext_reward i
        (s.ext_reward i + max 0 (act * (s.price e t - (dT : ℚ) * s.beta))),
      info_revenue := s.info_revenue + act * s.price e t }

/-- Lines 202-232: copy `acc[.][t]` to `acc[.][t+1]`, reset the per-step info
fields, then apply the (externally supplied) pax action edge by edge. -/
def pax_step (s : Env) (edges : List (Nat × Nat)) (paxAction : List ℚ) : Env :=
  let t := s.time
  let s0 := { s with
    reward := 0, ext_reward := fun _ => 0,
    acc := (List.range s.nregion).foldl (fun f i => upd2 f i (t + 1) (f i t)) s.acc,
    info_served_demand := 0, info_operating_cost := 0,
    info_revenue := 0, info_rebalancing_cost := 0 }
  (edges.zip paxAction).foldl (fun st ea => paxEdge t st ea.1 ea.2) s0

/-- Lines 234-237: the returned triple (state, clipped reward, done=False). -/
def pax_step_return (s : Env) (edges : List (Nat × Nat)) (paxAction : List ℚ) :
    Env × ℚ × Bool :=
  let s2 := pax_step s edges paxAction
  (s2, max 0 s2.reward, false)

/-! ## reb_step (amod_env.py lines 240-275) -/

/-- Lines 246-259, one edge: self-loops are skipped (`(i,j) not in
self.G.edges`); otherwise the requested flow is clipped to the vehicles the
source holds at that moment, recorded in `rebFlow` (an overwriting `=`
assignment at key `t + rebTime`), debited from the source and credited to
`dacc`, with cost and negative reward accruing. -/
def rebEdge (t : Nat) (s : Env) (e : Nat × Nat) (a : ℚ) : Env :=
  if isGEdge s.nregion e then
    let i := e.1
    let j := e.2
    let rt := s.rebTime i j t
    let flow := min (s.acc i (t + 1)) a
    { s with
      rebFlow := updE s.rebFlow (i, j) (t + rt) flow,
      acc := upd2 s.acc i (t + 1) (s.acc i (t + 1) - flow),
      dacc := upd2 s.dacc j (t + rt) (s.dacc j (t + rt) + flow),
      info_rebalancing_cost := s.info_rebalancing_cost + (rt : ℚ) * s.beta * flow,
      info_operating_cost := s.info_operating_cost + (rt : ℚ) * s.beta * flow,
      reward := s.reward - (rt : ℚ) * s.beta * flow,
      ext_reward := upd1 s.ext_reward i (s.ext_reward i - (rt : ℚ) * s.beta * flow) }
  else s

def rebPhase (t : Nat) (s : Env) (l : List ((Nat × Nat) × ℚ)) : Env :=
  l.foldl (fun st ea => rebEdge t st ea.1 ea.2) s

/-- Lines 262-267, one edge of the arrival fold: ledger entries recorded for
arrival time exactly `t` (the current step) are added into `acc[j][t+1]`.
`(i,j) in self.rebFlow` holds exactly for the directed graph edges (i ≠ j);
`(i,j) in self.paxFlow` holds for every pair carrying demand, i.e. every
ordered pair; `t in <dict>` reads as the total-function view (absent keys
carry 0). -/
def rebArrive (t : Nat) (s : Env) (e : Nat × Nat) : Env :=
  let s1 := if isGEdge s.nregion e then
      { s with acc := upd2 s.acc e.2 (t + 1) (s.acc e.2 (t + 1) + s.rebFlow e t) }
    else s
  { s1 with acc := upd2 s1.acc e.2 (t + 1) (s1.acc e.2 (t + 1) + s1.paxFlow e t) }

/-- Lines 240-275: apply the rebalancing action edge by edge, fold in the
arrivals recorded for time `t`, advance the clock, and refresh the graph
edge attribute `time` from `rebTime` at the new current time. -/
def reb_step (s : Env) (edges : List (Nat × Nat)) (rebAction : List ℚ) : Env :=
  let t := s.time
  let s0 := { s with reward := 0, ext_reward := fun _ => 0 }
  let s1 := rebPhase t s0 (edges.zip rebAction)
  let s2 := edges.foldl (rebArrive t) s1
  { s2 with
      time := t + 1,
      edgeTimeAttr := fun e =>
        if isGEdge s.nregion e then some (s.rebTime e.1 e.2 (t + 1))
        else s2.edgeTimeAttr e }

/-- Line 275: the returned triple (state, unclipped reward, done). -/
def reb_step_return (s : Env) (edges : List (Nat × Nat)) (rebAction : List ℚ) :
    Env × ℚ × Bool :=
  let s2 := reb_step s edges rebAction
  (s2, s2.reward, s.tf == s.time + 1)

/-! ## Construction (amod_env.py lines 20-82) and the edge list -/

/-- Scenario edge list (`Scenario.__init__` line 351):
`list(G.edges) + [(i,i) for i in G.nodes]`, with `G.edges` enumerated node by
node in adjacency order. -/
def scenarioEdges (N : Nat) : List (Nat × Nat) :=
  ((List.range N).flatMap fun i => (adjacency N i).map fun j => (i, j))
    ++ (List.range N).map fun i => (i, i)

/-- The pair list accumulated by `AMoD.__init__` lines 53-56 before
deduplication: for each region, the self-loop then its out-edges. -/
def amodEdgesRaw (N : Nat) : List (Nat × Nat) :=
  (List.range N).flatMap fun i => (i, i) :: (adjacency N i).map fun j => (i, j)

/-- `self.edges = list(set(...))` (line 57).  Python's set iteration order is
unspecified, so theorems about edge processing quantify over an arbitrary
duplicate-free enumeration; this definition fixes the membership. -/
def amodEdges (N : Nat) : List (Nat × Nat) := (amodEdgesRaw N).dedup

/-- The demand ledger built from trip attributes (lines 42-44): a later tuple
for the same `(i,j,t)` overwrites an earlier one. -/
def demandOf (tr : List Trip) : Nat × Nat → Nat → ℚ :=
  tr.foldl (fun f a => updE f (a.o, a.d) a.t (a.dem : ℚ)) fun _ _ => 0

def hasDemandOf (tr : List Trip) : Nat × Nat → Nat → Bool :=
  tr.foldl (fun f a => updE f (a.o, a.d) a.t true) fun _ _ => false

def priceOf (tr : List Trip) : Nat × Nat → Nat → ℚ :=
  tr.foldl (fun f a => updE f (a.o, a.d) a.t a.p) fun _ _ => 0

/-- Lines 45-46: `depDemand[i][t] += d` and (the code's own `???` quirk)
`arrDemand[i][t + demandTime[i,j][t]] += d` — indexed by the origin `i`,
not the destination. -/
def depDemandOf (tr : List Trip) : Nat → Nat → ℚ :=
  tr.foldl (fun f a => upd2 f a.o a.t (f a.o a.t + (a.dem : ℚ))) fun _ _ => 0

def arrDemandOf (dT : Nat → Nat → Nat → Nat) (tr : List Trip) : Nat → Nat → ℚ :=
  tr.foldl (fun f a =>
    upd2 f a.o (a.t + dT a.o a.d a.t) (f a.o (a.t + dT a.o a.d a.t) + (a.dem : ℚ)))
    fun _ _ => 0

/-- `AMoD.__init__`.  Line 21 deep-copies the scenario into `self.scenario`,
but line 23 binds `self.G` to `scenario.G` — the *caller's* graph object, not
the copy.  Consequently the write `self.G.edges[i,j]['time'] = rebTime[i,j][0]`
(line 61) lands on the caller's scenario graph; the `edgeTimeAttr` field of
the resulting state *is* the caller graph's attribute dict. -/
def amodInit (sc : Scenario) (mode : Nat) (beta0 : ℚ) : Env :=
  { nregion := sc.n
    mode := mode
    tf := sc.tf
    beta := beta0 * (sc.tstep : ℚ)
    demandTime := sc.demandTime
    rebTime := sc.rebTime
    accInit := sc.accInit
    scenP := sc.p
    time := 0
    acc := fun n t => if n < sc.n ∧ t = 0 then (sc.accInit n : ℚ) else 0
    dacc := fun _ _ => 0
    rebFlow := fun _ _ => 0
    paxFlow := fun _ _ => 0
    queue := fun _ => []
    passengers := fun _ _ => []
    demand := demandOf sc.tripAttr
    hasDemand := hasDemandOf sc.tripAttr
    price := priceOf sc.tripAttr
    servedDemand := fun _ _ => 0
    unservedDemand := fun _ _ => 0
    depDemand := depDemandOf sc.tripAttr
    arrDemand := arrDemandOf sc.demandTime sc.tripAttr
    regionDemand := fun _ _ => 0
    edgeTimeAttr := fun e =>
      if isGEdge sc.n e then some (sc.rebTime e.1 e.2 0) else sc.gEdgeTimeAttr e
    arrivals := 0
    rngIdx := 0
    npIdx := 0
    reward := 0
    ext_reward := fun _ => 0
    info_revenue := 0
    info_served_demand := 0
    info_unserved_demand := 0
    info_rebalancing_cost := 0
    info_operating_cost := 0
    info_served_waiting := 0 }

/-- The caller's scenario after `AMoD(scenario, ...)` returns: because
`self.G = scenario.G` aliases the original graph, the construction-time write
of the `time` edge attribute (line 61) is visible on the caller's object. -/
def callerScenarioAfterInit (sc : Scenario) : Scenario :=
  { sc with gEdgeTimeAttr := fun e =>
      if isGEdge sc.n e then some (sc.rebTime e.1 e.2 0) else sc.gEdgeTimeAttr e }

/-! ## Scenario.get_random_demand (lines 458-516) and AMoD.reset (lines 277-320)

`get_random_demand` (synthetic-grid branch, `fix_price = True`) consumes the
global numpy stream: `np.random.rand(N)` for the per-region demand multiplier
(one position per region), then one Poisson draw per `(t, edge)` in loop
order `for t in range(2*tf): for (i,j) in self.edges`.  Randomness is an
outcome oracle: the k-th Poisson draw of the process returns `npP k`; the
distribution parameters (`static_demand`, trip-length weights, demand ratio)
select distributions and are invisible to the outcome stream.  Prices come
from the fixed table `p` sampled at scenario construction. -/

def getRandomDemand (N tf2 : Nat) (p : Nat × Nat → ℚ) (npP : Nat → Nat)
    (start : Nat) : List Trip × Nat :=
  let es := scenarioEdges N
  let trips := (List.range tf2).flatMap fun t =>
    es.enum.map fun ke => (⟨ke.2.1, ke.2.2, t, npP (start + N + t * es.length + ke.1),
      p ke.2⟩ : Trip)
  (trips, start + N + tf2 * es.length)

/-- Set a whole row of an edge-keyed ledger to zero (reset lines 314-316 loop
`for i,j in self.demand: servedDemand[i,j] = defaultdict(float)` — rows for
pairs outside the fresh demand would keep their stale values, but the fresh
trip list covers every pair). -/
def zeroRows (pairs : List (Nat × Nat)) (f : Nat × Nat → Nat → ℚ) :
    Nat × Nat → Nat → ℚ :=
  pairs.foldl (fun g e0 => fun e t => if e = e0 then 0 else g e t) f

/-- Reset lines 298-304: `regionDemand` with the code's quirk — the first
tuple seen for `(i,t)` stores 0, later ones add their demand. -/
def regionDemandOf (tr : List Trip) : Nat → Nat → ℚ :=
  (tr.foldl (fun fs : (Nat → Nat → ℚ) × (Nat → Nat → Bool) => fun a =>
      if fs.2 a.o a.t then (upd2 fs.1 a.o a.t (fs.1 a.o a.t + (a.dem : ℚ)), fs.2)
      else (upd2 fs.1 a.o a.t 0, upd2 fs.2 a.o a.t true))
    (fun _ _ => 0, fun _ _ => false)).1

/-- `AMoD.reset`: fresh ledgers and queues, re-sampled demand (continuing the
global numpy stream from `npIdx`), `acc[n][0] = accInit`, time 0.  The `info`
diagnostics, `depDemand`/`arrDemand` and the graph's `time` attribute are
*not* touched. -/
def reset (s : Env) (npP : Nat → Nat) : Env :=
  let res := getRandomDemand s.nregion (2 * s.tf) s.scenP npP s.npIdx
  let tr := res.1
  { s with
    acc := fun n t => if n < s.nregion ∧ t = 0 then (s.accInit n : ℚ) else 0
    dacc := fun _ _ => 0
    rebFlow := fun _ _ => 0
    paxFlow := fun _ _ => 0
    passengers := fun _ _ => []
    queue := fun _ => []
    demand := demandOf tr
    hasDemand := hasDemandOf tr
    price := priceOf tr
    regionDemand := regionDemandOf tr
    arrivals := 0
    npIdx := res.2
    time := 0
    servedDemand := zeroRows (tr.map fun a => (a.o, a.d)) s.servedDemand
    unservedDemand := zeroRows (tr.map fun a => (a.o, a.d)) s.unservedDemand
    reward := 0 }

/-! ## Measures: total vehicles on the ground and in flight -/

/-- Sum of a region-by-time map over all regions at one time index. -/
def rowSum (N : Nat) (f : Nat → Nat → ℚ) (τ : Nat) : ℚ :=
  (Finset.range N).sum fun n => f n τ

/-- Sum of an edge ledger over one pair, over arrival keys in `[τ, B)`. -/
def icoSum (τ B : Nat) (h : Nat → ℚ) : ℚ := (Finset.Ico τ B).sum h

/-- Sum of an edge ledger over all ordered pairs of regions and all arrival
keys in `[τ, B)`. -/
def ledgerSum (N τ B : Nat) (g : Nat × Nat → Nat → ℚ) : ℚ :=
  ((Finset.range N) ×ˢ (Finset.range N)).sum fun e => icoSum τ B (g e)

/-- Vehicles on the ground at time index `τ`. -/
def totalAcc (s : Env) (τ : Nat) : ℚ := rowSum s.nregion s.acc τ

/-- Vehicles in flight: ledger entries with arrival keys in `[τ, B)`. -/
def inflight (s : Env) (τ B : Nat) : ℚ :=
  ledgerSum s.nregion τ B s.rebFlow + ledgerSum s.nregion τ B s.paxFlow

/-! ## C2: reward clipping -/

/-- The rebalancing cost accumulated by the edge loop of `reb_step`, written
as the explicit sum the claim names: over each processed edge (self-loops
skipped), `rebTime[i,j][t] * beta * appliedFlow` where the applied flow is
the requested flow clipped to the vehicles available at that moment (the
clip evolves `acc` exactly as the loop does). -/
def rebCostF (N : Nat) (RT : Nat → Nat → Nat → Nat) (β : ℚ) (t : Nat)
    (acc : Nat → Nat → ℚ) : List ((Nat × Nat) × ℚ) → ℚ
  | [] => 0
  | ea :: rest =>
    if isGEdge N ea.1 then
      (RT ea.1.1 ea.1.2 t : ℚ) * β * min (acc ea.1.1 (t + 1)) ea.2
        + rebCostF N RT β t
            (upd2 acc ea.1.1 (t + 1) (acc ea.1.1 (t + 1) - min (acc ea.1.1 (t + 1)) ea.2))
            rest
    else rebCostF N RT β t acc rest



/-- A small concrete environment used by the witnesses: the toy 2-region
scenario (ninit 5, horizon 2, unit travel times, fixed price 2, beta 0.2). -/
def wEnv : Env :=
  { nregion := 2
    mode := 0
    tf := 2
    beta := 1 / 5
    demandTime := fun _ _ _ => 1
    rebTime := fun _ _ _ => 1
    accInit := fun _ => 5
    scenP := fun _ => 2
    time := 0
    acc := fun n t => if n < 2 ∧ t = 0 then 5 else 0
    dacc := fun _ _ => 0
    rebFlow := fun _ _ => 0
    paxFlow := fun _ _ => 0
    queue := fun _ => []
    passengers := fun _ _ => []
    demand := fun _ _ => 0
    hasDemand := fun _ _ => true
    price := fun _ _ => 2
    servedDemand := fun _ _ => 0
    unservedDemand := fun _ _ => 0
    depDemand := fun _ _ => 0
    arrDemand := fun _ _ => 0
    regionDemand := fun _ _ => 0
    edgeTimeAttr := fun e => if isGEdge 2 e then some 1 else none
    arrivals := 0
    rngIdx := 0
    npIdx := 0
    reward := 0
    ext_reward := fun _ => 0
    info_revenue := 0
    info_served_demand := 0
    info_unserved_demand := 0
    info_rebalancing_cost := 0
    info_operating_cost := 0
    info_served_waiting := 0 }

/-- C4 counterexample state: time 1, one rebalancing vehicle recorded in
`rebFlow[(0,1)]` to arrive at time 2 = t+1, all inventories empty. -/
def cEnv4 : Env :=
  { wEnv with
    time := 1
    acc := fun _ _ => 0
    rebFlow := fun e k => if e = (0, 1) ∧ k = 2 then 1 else 0 }


/-- The wait-counter bump every unmatched passenger takes
(`unmatched_update`, modelled from the spec). -/
def bump (p : Passenger) : Passenger := { p with wait_time := p.wait_time + 1 }


/-- The queue survivors of one walk over `l` when nobody is matched: those
whose bumped wait counter stays below MAX_WAIT_STEP, bumped, in order. -/
def keptFilter (l : List Passenger) : List Passenger :=
  (l.filter fun p => p.wait_time + 1 < maxWaitStep).map bump

/-- How many passengers of `l` abandon towards the OD pair `e` when nobody
is matched. -/
def abandonsTo (l : List Passenger) (e : Nat × Nat) : Nat :=
  (l.filter fun p => (p.origin, p.destination) = e ∧ maxWaitStep ≤ p.wait_time + 1).length


/-- C5 counterexample state: time 16, a passenger requested at time 5 who has
waited 11 unmatched steps sits in region 0's queue, no vehicles anywhere and
no fresh demand. -/
def cEnv5 : Env :=
  { wEnv with
    time := 16
    acc := fun _ _ => 0
    demand := fun _ _ => 0
    queue := fun m =>
      if m = 0 then [(⟨0, 1, 5, 2, 11, false⟩ : Passenger)] else [] }


/-- C7 scenario: the caller's toy 2-region scenario; its graph carries no
`time` edge attribute before the environment is constructed. -/
def scWitness : Scenario :=
  { n := 2
    tf := 2
    tstep := 1
    demandTime := fun _ _ _ => 1
    rebTime := fun _ _ _ => 1
    accInit := fun _ => 5
    p := fun _ => 2
    tripAttr := []
    gEdgeTimeAttr := fun _ => none }


/-- C8 counterexample state: an environment carrying non-zero cumulative
diagnostics and departure/arrival ledgers from a finished episode. -/
def cEnv8 : Env :=
  { wEnv with
    time := 2
    reward := 9
    info_unserved_demand := 5
    info_revenue := 11
    depDemand := fun _ _ => 3
    arrDemand := fun _ _ => 7 }


/-- What the code actually does to the step's incoming batch of region `n`:
destination by destination, append the new passengers and re-shuffle the
accumulated incoming list with a fresh seed-42 generator (line 108 sits
inside the destination loop). -/
def iterShuffledBatch (s : Env) (t n : Nat) : List Passenger :=
  (adjacency s.nregion n).foldl
    (fun l j => pyShuffle42 (l ++ genPassengers n j t (s.demand (n, j) t) (s.price (n, j) t)))
    []

/-- The spec's words for C6: one single fixed-seed shuffle applied once per
region per step to the whole incoming batch. -/
def specOnceShuffledBatch (s : Env) (t n : Nat) : List Passenger :=
  pyShuffle42 ((adjacency s.nregion n).flatMap
    fun j => genPassengers n j t (s.demand (n, j) t) (s.price (n, j) t))

/-- The spec's predicted queue after the enter phase: previously queued
passengers first, then the once-shuffled incoming batch. -/
def specQueueAfterEnter (s : Env) (t n : Nat) : List Passenger :=
  s.queue n ++ specOnceShuffledBatch s t n

/-- C6 counterexample state: four regions, one passenger requested from
region 0 to each destination 1, 2 and 3 at time 0, no vehicles. -/
def cEnv6 : Env :=
  { wEnv with
    nregion := 4
    acc := fun _ _ => 0
    demand := fun e t => if e.1 = 0 ∧ e.2 ≠ 0 ∧ t = 0 then 1 else 0 }

/-- C1 counterexample state: time 1, one vehicle on the ground (`acc[0][2]`)
and two vehicles already in flight on edge (0,1) with recorded arrival time
2; the next rebalancing write on (0,1) lands on the same ledger key. -/
def cEnv1 : Env :=
  { wEnv with
    time := 1
    acc := fun n t => if n = 0 ∧ t = 2 then 1 else 0
    rebFlow := fun e k => if e = (0, 1) ∧ k = 2 then 2 else 0 }

/-! ## THEOREMS -/

theorem fcons_eq (v : Nat) (l : List Nat) : fcons v l = v :: l := by
  unfold fcons; split <;> rfl

example : mt42Words.take 8 = [2746317213, 478163327, 107420369, 3184935163,
    1181241943, 1051802512, 958682846, 599310825] := by decide

example : pyShuffle42 [0, 1] = [1, 0] := by decide
example : pyShuffle42 [0, 1, 2] = [1, 0, 2] := by decide
example : pyShuffle42 [0, 1, 2, 3] = [2, 1, 3, 0] := by decide
example : pyShuffle42 [0, 1, 2, 3, 4] = [3, 1, 2, 4, 0] := by decide

theorem rowSum_upd2_ne (N : Nat) (f : Nat → Nat → ℚ) (i τ : Nat) (v : ℚ)
    (τ' : Nat) (h : τ' ≠ τ) : rowSum N (upd2 f i τ v) τ' = rowSum N f τ' := by
  unfold rowSum
  refine Finset.sum_congr rfl fun n _ => ?_
  simp [upd2, h]

theorem rowSum_upd2_same (N : Nat) (f : Nat → Nat → ℚ) (i τ : Nat) (v : ℚ)
    (hi : i < N) : rowSum N (upd2 f i τ v) τ = rowSum N f τ - f i τ + v := by
  unfold rowSum
  have hfun : (fun n => upd2 f i τ v n τ) = Function.update (fun n => f n τ) i v := by
    funext n
    by_cases h : n = i <;> simp [upd2, Function.update, h]
  rw [hfun, Finset.sum_update_of_mem (Finset.mem_range.mpr hi),
    Finset.sum_sdiff_eq_sub (Finset.singleton_subset_iff.mpr (Finset.mem_range.mpr hi)),
    Finset.sum_singleton]
  ring

theorem icoSum_update_mem (τ B k : Nat) (h : Nat → ℚ) (v : ℚ)
    (h1 : τ ≤ k) (h2 : k < B) :
    icoSum τ B (Function.update h k v) = icoSum τ B h - h k + v := by
  unfold icoSum
  rw [Finset.sum_update_of_mem (Finset.mem_Ico.mpr ⟨h1, h2⟩),
    Finset.sum_sdiff_eq_sub (Finset.singleton_subset_iff.mpr (Finset.mem_Ico.mpr ⟨h1, h2⟩)),
    Finset.sum_singleton]
  ring

theorem icoSum_update_out (τ B k : Nat) (h : Nat → ℚ) (v : ℚ)
    (hout : k < τ ∨ B ≤ k) :
    icoSum τ B (Function.update h k v) = icoSum τ B h := by
  unfold icoSum
  refine Finset.sum_congr rfl fun t ht => ?_
  rcases Finset.mem_Ico.mp ht with ⟨h1, h2⟩
  have : t ≠ k := by
    rcases hout with h3 | h3
    · exact fun he => absurd (he ▸ h1) (Nat.not_le.mpr h3)
    · exact fun he => absurd (he ▸ h2) (Nat.not_lt.mpr h3)
  simp [Function.update, this]

theorem updE_row_eq {α : Type} (g : Nat × Nat → Nat → α) (e0 : Nat × Nat)
    (k : Nat) (v : α) (e : Nat × Nat) :
    updE g e0 k v e = if e = e0 then Function.update (g e0) k v else g e := by
  by_cases h : e = e0
  · subst h
    funext t
    by_cases ht : t = k <;> simp [updE, Function.update, ht]
  · funext t
    simp [updE, h]

theorem ledgerSum_updE_mem (N τ B : Nat) (g : Nat × Nat → Nat → ℚ)
    (e0 : Nat × Nat) (k : Nat) (v : ℚ) (he1 : e0.1 < N) (he2 : e0.2 < N)
    (h1 : τ ≤ k) (h2 : k < B) :
    ledgerSum N τ B (updE g e0 k v) = ledgerSum N τ B g - g e0 k + v := by
  unfold ledgerSum
  have hmem : e0 ∈ (Finset.range N) ×ˢ (Finset.range N) := by
    exact Finset.mem_product.mpr ⟨Finset.mem_range.mpr he1, Finset.mem_range.mpr he2⟩
  have hfun : (fun e => icoSum τ B (updE g e0 k v e))
      = Function.update (fun e => icoSum τ B (g e)) e0
          (icoSum τ B (Function.update (g e0) k v)) := by
    funext e
    rw [updE_row_eq]
    by_cases h : e = e0 <;> simp [Function.update, h]
  rw [hfun, Finset.sum_update_of_mem hmem,
    Finset.sum_sdiff_eq_sub (Finset.singleton_subset_iff.mpr hmem),
    Finset.sum_singleton, icoSum_update_mem τ B k _ v h1 h2]
  ring

theorem ledgerSum_updE_out (N τ B : Nat) (g : Nat × Nat → Nat → ℚ)
    (e0 : Nat × Nat) (k : Nat) (v : ℚ) (hout : k < τ ∨ B ≤ k) :
    ledgerSum N τ B (updE g e0 k v) = ledgerSum N τ B g := by
  unfold ledgerSum
  refine Finset.sum_congr rfl fun e _ => ?_
  rw [updE_row_eq]
  by_cases h : e = e0
  · simp only [h, if_pos rfl]
    exact icoSum_update_out τ B k _ v hout
  · simp [h]

theorem icoSum_bot (τ B : Nat) (h : Nat → ℚ) (hlt : τ < B) :
    icoSum τ B h = h τ + icoSum (τ + 1) B h := by
  unfold icoSum
  exact Finset.sum_eq_sum_Ico_succ_bot hlt h

/-- Peeling the bottom arrival key out of the in-flight sum. -/
theorem ledgerSum_bot (N τ B : Nat) (g : Nat × Nat → Nat → ℚ) (hlt : τ < B) :
    ledgerSum N τ B g
      = ((Finset.range N) ×ˢ (Finset.range N)).sum (fun e => g e τ)
        + ledgerSum N (τ + 1) B g := by
  unfold ledgerSum
  rw [← Finset.sum_add_distrib]
  exact Finset.sum_congr rfl fun e _ => icoSum_bot τ B (g e) hlt

/-! ## Frame lemmas for the rebalancing folds -/

theorem rebEdge_frame (t : Nat) (s : Env) (e : Nat × Nat) (a : ℚ) :
    (rebEdge t s e a).nregion = s.nregion
    ∧ (rebEdge t s e a).rebTime = s.rebTime
    ∧ (rebEdge t s e a).beta = s.beta
    ∧ (rebEdge t s e a).paxFlow = s.paxFlow
    ∧ (rebEdge t s e a).time = s.time
    ∧ (rebEdge t s e a).edgeTimeAttr = s.edgeTimeAttr
    ∧ (rebEdge t s e a).tf = s.tf := by
  unfold rebEdge; split <;> exact ⟨rfl, rfl, rfl, rfl, rfl, rfl, rfl⟩

theorem rebPhase_cons (t : Nat) (s : Env) (ea : (Nat × Nat) × ℚ)
    (l : List ((Nat × Nat) × ℚ)) :
    rebPhase t s (ea :: l) = rebPhase t (rebEdge t s ea.1 ea.2) l := rfl

theorem rebPhase_frame (t : Nat) (l : List ((Nat × Nat) × ℚ)) (s : Env) :
    (rebPhase t s l).nregion = s.nregion
    ∧ (rebPhase t s l).rebTime = s.rebTime
    ∧ (rebPhase t s l).beta = s.beta
    ∧ (rebPhase t s l).paxFlow = s.paxFlow
    ∧ (rebPhase t s l).time = s.time
    ∧ (rebPhase t s l).edgeTimeAttr = s.edgeTimeAttr
    ∧ (rebPhase t s l).tf = s.tf := by
  induction l generalizing s with
  | nil => exact ⟨rfl, rfl, rfl, rfl, rfl, rfl, rfl⟩
  | cons ea rest ih =>
    rw [rebPhase_cons]
    rcases ih (rebEdge t s ea.1 ea.2) with ⟨h1, h2, h3, h4, h5, h6, h7⟩
    rcases rebEdge_frame t s ea.1 ea.2 with ⟨g1, g2, g3, g4, g5, g6, g7⟩
    exact ⟨h1.trans g1, h2.trans g2, h3.trans g3, h4.trans g4,
      h5.trans g5, h6.trans g6, h7.trans g7⟩

theorem rebArrive_frame (t : Nat) (s : Env) (e : Nat × Nat) :
    (rebArrive t s e).nregion = s.nregion
    ∧ (rebArrive t s e).rebFlow = s.rebFlow
    ∧ (rebArrive t s e).paxFlow = s.paxFlow
    ∧ (rebArrive t s e).reward = s.reward
    ∧ (rebArrive t s e).time = s.time
    ∧ (rebArrive t s e).edgeTimeAttr = s.edgeTimeAttr
    ∧ (rebArrive t s e).rebTime = s.rebTime
    ∧ (rebArrive t s e).tf = s.tf := by
  unfold rebArrive; split <;> exact ⟨rfl, rfl, rfl, rfl, rfl, rfl, rfl, rfl⟩

theorem rebArriveFold_frame (t : Nat) (E : List (Nat × Nat)) (s : Env) :
    (E.foldl (rebArrive t) s).nregion = s.nregion
    ∧ (E.foldl (rebArrive t) s).rebFlow = s.rebFlow
    ∧ (E.foldl (rebArrive t) s).paxFlow = s.paxFlow
    ∧ (E.foldl (rebArrive t) s).reward = s.reward
    ∧ (E.foldl (rebArrive t) s).time = s.time
    ∧ (E.foldl (rebArrive t) s).edgeTimeAttr = s.edgeTimeAttr
    ∧ (E.foldl (rebArrive t) s).rebTime = s.rebTime
    ∧ (E.foldl (rebArrive t) s).tf = s.tf := by
  induction E generalizing s with
  | nil => exact ⟨rfl, rfl, rfl, rfl, rfl, rfl, rfl, rfl⟩
  | cons e rest ih =>
    rw [List.foldl_cons]
    rcases ih (rebArrive t s e) with ⟨h1, h2, h3, h4, h5, h6, h7, h8⟩
    rcases rebArrive_frame t s e with ⟨g1, g2, g3, g4, g5, g6, g7, g8⟩
    exact ⟨h1.trans g1, h2.trans g2, h3.trans g3, h4.trans g4,
      h5.trans g5, h6.trans g6, h7.trans g7, h8.trans g8⟩

theorem rebEdge_acc (t : Nat) (s : Env) (e : Nat × Nat) (a : ℚ)
    (h : isGEdge s.nregion e) :
    (rebEdge t s e a).acc
      = upd2 s.acc e.1 (t + 1) (s.acc e.1 (t + 1) - min (s.acc e.1 (t + 1)) a) := by
  unfold rebEdge
  rw [if_pos h]

theorem rebEdge_skip (t : Nat) (s : Env) (e : Nat × Nat) (a : ℚ)
    (h : ¬ isGEdge s.nregion e) : rebEdge t s e a = s := by
  unfold rebEdge
  rw [if_neg h]

theorem rebEdge_reward (t : Nat) (s : Env) (e : Nat × Nat) (a : ℚ)
    (h : isGEdge s.nregion e) :
    (rebEdge t s e a).reward
      = s.reward - (s.rebTime e.1 e.2 t : ℚ) * s.beta * min (s.acc e.1 (t + 1)) a := by
  unfold rebEdge
  rw [if_pos h]

theorem rebPhase_reward (t : Nat) (l : List ((Nat × Nat) × ℚ)) (s : Env) :
    (rebPhase t s l).reward
      = s.reward - rebCostF s.nregion s.rebTime s.beta t s.acc l := by
  induction l generalizing s with
  | nil => simp [rebPhase, rebCostF]
  | cons ea rest ih =>
    rw [rebPhase_cons]
    by_cases h : isGEdge s.nregion ea.1
    · have hfr := rebEdge_frame t s ea.1 ea.2
      rw [ih, rebCostF, if_pos h, rebEdge_reward t s ea.1 ea.2 h,
        hfr.1, hfr.2.1, hfr.2.2.1, rebEdge_acc t s ea.1 ea.2 h]
      ring
    · rw [rebEdge_skip t s ea.1 ea.2 h, ih, rebCostF, if_neg h]

/-- C2.  The matching-phase entry points (`match_step_simple` line 156 and
`pax_step` line 237) return `max(0, accumulated reward)`, hence a value ≥ 0;
`reb_step` (line 275) returns its reward unclipped, and that reward is
exactly minus the accumulated `rebTime * beta * appliedFlow` sum over the
processed edges. -/
theorem reward_clipping (s : Env) (E : List (Nat × Nat)) (act pact : List ℚ)
    (ω : Nat → Bool) :
    (match_step_return ω s).2.1 = max 0 (match_step_simple ω s).reward
    ∧ 0 ≤ (match_step_return ω s).2.1
    ∧ (pax_step_return s E pact).2.1 = max 0 (pax_step s E pact).reward
    ∧ 0 ≤ (pax_step_return s E pact).2.1
    ∧ (reb_step_return s E act).2.1
        = -(rebCostF s.nregion s.rebTime s.beta s.time s.acc (E.zip act)) := by
  refine ⟨rfl, le_max_left 0 _, rfl, le_max_left 0 _, ?_⟩
  show (reb_step s E act).reward = _
  unfold reb_step
  have hfold := rebArriveFold_frame s.time E
    (rebPhase s.time { s with reward := 0, ext_reward := fun _ => 0 } (E.zip act))
  have hr := rebPhase_reward s.time (E.zip act)
    { s with reward := 0, ext_reward := fun _ => 0 }
  simp only [hfold.2.2.2.1, hr]
  ring

/-! ## Point lemmas for map updates -/

theorem upd2_same {α : Type} (f : Nat → Nat → α) (a b : Nat) (v : α) :
    upd2 f a b v a b = v := by simp [upd2]

theorem upd2_ne {α : Type} (f : Nat → Nat → α) (a b : Nat) (v : α)
    (x y : Nat) (h : ¬(x = a ∧ y = b)) : upd2 f a b v x y = f x y := by
  simp only [upd2, if_neg h]

theorem updE_same {α : Type} (f : Nat × Nat → Nat → α) (e : Nat × Nat) (b : Nat)
    (v : α) : updE f e b v e b = v := by simp [updE]

theorem updE_ne {α : Type} (f : Nat × Nat → Nat → α) (e : Nat × Nat) (b : Nat)
    (v : α) (x : Nat × Nat) (y : Nat) (h : ¬(x = e ∧ y = b)) :
    updE f e b v x y = f x y := by
  simp only [updE, if_neg h]

theorem upd1_same {α : Type} (f : Nat → α) (a : Nat) (v : α) :
    upd1 f a v a = v := by simp [upd1]

theorem upd1_ne {α : Type} (f : Nat → α) (a : Nat) (v : α) (x : Nat)
    (h : x ≠ a) : upd1 f a v x = f x := by
  simp only [upd1, if_neg h]

/-! ## C3: rebalancing flow clipping -/

theorem rebEdge_rebFlow (t : Nat) (s : Env) (e : Nat × Nat) (a : ℚ)
    (h : isGEdge s.nregion e) :
    (rebEdge t s e a).rebFlow
      = updE s.rebFlow e (t + s.rebTime e.1 e.2 t) (min (s.acc e.1 (t + 1)) a) := by
  unfold rebEdge
  rw [if_pos h]

theorem rebPhase_take_succ (t : Nat) (s : Env) (l : List ((Nat × Nat) × ℚ))
    (k : Nat) (hk : k < l.length) :
    rebPhase t s (l.take (k + 1))
      = rebEdge t (rebPhase t s (l.take k)) (l.getD k ((0, 0), 0)).1
          (l.getD k ((0, 0), 0)).2 := by
  have hget : l[k]? = some (l.getD k ((0, 0), 0)) := by
    rw [List.getElem?_eq_getElem hk]
    rw [List.getD_eq_getElem?_getD, List.getElem?_eq_getElem hk]
    rfl
  rw [List.take_succ, hget]
  show rebPhase t s (l.take k ++ [l.getD k ((0, 0), 0)]) = _
  unfold rebPhase
  rw [List.foldl_append]
  rfl

theorem rebPhase_nonneg (t N : Nat) (l : List ((Nat × Nat) × ℚ)) (st : Env)
    (hN : st.nregion = N) (h0 : ∀ n, n < N → 0 ≤ st.acc n (t + 1)) :
    ∀ n, n < N → 0 ≤ (rebPhase t st l).acc n (t + 1) := by
  induction l generalizing st with
  | nil => exact h0
  | cons ea rest ih =>
    rw [rebPhase_cons]
    refine ih (rebEdge t st ea.1 ea.2) ((rebEdge_frame t st ea.1 ea.2).1.trans hN) ?_
    intro n hn
    by_cases hg : isGEdge st.nregion ea.1
    · rw [rebEdge_acc t st ea.1 ea.2 hg]
      by_cases he : n = ea.1.1 ∧ t + 1 = t + 1
      · rw [he.1, upd2_same]
        exact sub_nonneg.mpr (min_le_left _ _)
      · rw [upd2_ne _ _ _ _ _ _ he]
        exact h0 n hn
    · rw [rebEdge_skip t st ea.1 ea.2 hg]
      exact h0 n hn

/-- Phase 1 leaves the arrival-time-`t` ledger rows alone when every
rebalancing travel time is at least one step. -/
theorem rebPhase_rebFlow_at_t (t : Nat) (l : List ((Nat × Nat) × ℚ)) (st : Env)
    (hrt : ∀ ea ∈ l, isGEdge st.nregion ea.1 → 1 ≤ st.rebTime ea.1.1 ea.1.2 t) :
    ∀ e, (rebPhase t st l).rebFlow e t = st.rebFlow e t := by
  induction l generalizing st with
  | nil => intro e; rfl
  | cons ea rest ih =>
    rw [rebPhase_cons]
    intro e
    have hfr := rebEdge_frame t st ea.1 ea.2
    have hrest : ∀ ea2 ∈ rest, isGEdge (rebEdge t st ea.1 ea.2).nregion ea2.1 →
        1 ≤ (rebEdge t st ea.1 ea.2).rebTime ea2.1.1 ea2.1.2 t := by
      intro ea2 hm
      rw [hfr.1, hfr.2.1]
      exact hrt ea2 (List.mem_cons_of_mem _ hm)
    rw [ih (rebEdge t st ea.1 ea.2) hrest]
    by_cases hg : isGEdge st.nregion ea.1
    · rw [rebEdge_rebFlow t st ea.1 ea.2 hg]
      have hne : ¬(e = ea.1 ∧ t = t + st.rebTime ea.1.1 ea.1.2 t) := by
        rintro ⟨-, habs⟩
        have h1 := hrt ea (List.mem_cons_self _ _) hg
        omega
      rw [updE_ne _ _ _ _ _ _ hne]
    · rw [rebEdge_skip t st ea.1 ea.2 hg]

/-- What the arrival fold does to one entry of `acc`: the pair's ledger
entries recorded for arrival time `t` land in `acc[e.2][t+1]` (`rebFlow` only
for graph edges); everything else is untouched. -/
theorem rebArrive_acc (t : Nat) (st : Env) (e : Nat × Nat) (n τ : Nat) :
    (rebArrive t st e).acc n τ
      = if n = e.2 ∧ τ = t + 1 then
          st.acc e.2 (t + 1) + (if isGEdge st.nregion e then st.rebFlow e t else 0)
            + st.paxFlow e t
        else st.acc n τ := by
  by_cases hg : isGEdge st.nregion e <;> by_cases he : n = e.2 ∧ τ = t + 1
  · obtain ⟨h1, h2⟩ := he
    subst h1; subst h2
    simp [rebArrive, upd2, hg]
  · simp [rebArrive, upd2, hg, he]
  · obtain ⟨h1, h2⟩ := he
    subst h1; subst h2
    simp [rebArrive, upd2, hg]
  · simp [rebArrive, upd2, hg, he]

theorem rebArriveFold_nonneg (t N : Nat) (E : List (Nat × Nat)) (st : Env)
    (hN : st.nregion = N) (h0 : ∀ n, n < N → 0 ≤ st.acc n (t + 1))
    (hled : ∀ e ∈ E, 0 ≤ st.rebFlow e t ∧ 0 ≤ st.paxFlow e t) :
    ∀ n, n < N → 0 ≤ (E.foldl (rebArrive t) st).acc n (t + 1) := by
  induction E generalizing st with
  | nil => exact h0
  | cons e rest ih =>
    rw [List.foldl_cons]
    have hfr := rebArrive_frame t st e
    refine ih (rebArrive t st e) (hfr.1.trans hN) ?_ ?_
    · intro n hn
      have hrf : 0 ≤ st.rebFlow e t := (hled e (List.mem_cons_self _ _)).1
      have hpf : 0 ≤ st.paxFlow e t := (hled e (List.mem_cons_self _ _)).2
      rw [rebArrive_acc]
      split_ifs with he hg
      · have := h0 e.2 (he.1 ▸ hn)
        linarith
      · have := h0 e.2 (he.1 ▸ hn)
        linarith
      · exact h0 n hn
    · intro e2 hm
      rw [hfr.2.1, hfr.2.2.1]
      exact hled e2 (List.mem_cons_of_mem _ hm)

/-- C3.  Each processed graph edge applies exactly
`min(acc[i][t+1] at that moment, requested flow)`, which never exceeds what
the source region holds at that moment, and — starting from non-negative
inventories and non-negative in-flight ledgers — no entry `acc[.][t+1]` is
negative after `reb_step`, whatever the requested action. -/
theorem flow_clipping (s : Env) (E : List (Nat × Nat)) (act : List ℚ)
    (hacc0 : ∀ n, n < s.nregion → 0 ≤ s.acc n (s.time + 1))
    (hled : ∀ e ∈ E, 0 ≤ s.rebFlow e s.time ∧ 0 ≤ s.paxFlow e s.time)
    (hrt : ∀ e ∈ E, isGEdge s.nregion e → 1 ≤ s.rebTime e.1 e.2 s.time) :
    (∀ k, k < (E.zip act).length →
      isGEdge s.nregion ((E.zip act).getD k ((0, 0), 0)).1 →
      ((rebPhase s.time { s with reward := 0, ext_reward := fun _ => 0 }
          ((E.zip act).take (k + 1))).rebFlow
            ((E.zip act).getD k ((0, 0), 0)).1
            (s.time + s.rebTime ((E.zip act).getD k ((0, 0), 0)).1.1
              ((E.zip act).getD k ((0, 0), 0)).1.2 s.time)
        = min ((rebPhase s.time { s with reward := 0, ext_reward := fun _ => 0 }
            ((E.zip act).take k)).acc ((E.zip act).getD k ((0, 0), 0)).1.1 (s.time + 1))
            ((E.zip act).getD k ((0, 0), 0)).2)
      ∧ min ((rebPhase s.time { s with reward := 0, ext_reward := fun _ => 0 }
            ((E.zip act).take k)).acc ((E.zip act).getD k ((0, 0), 0)).1.1 (s.time + 1))
            ((E.zip act).getD k ((0, 0), 0)).2
          ≤ (rebPhase s.time { s with reward := 0, ext_reward := fun _ => 0 }
            ((E.zip act).take k)).acc ((E.zip act).getD k ((0, 0), 0)).1.1 (s.time + 1))
    ∧ (∀ n, n < s.nregion → 0 ≤ (reb_step s E act).acc n (s.time + 1)) := by
  constructor
  · intro k hk hg
    set L := E.zip act
    set s0 : Env := { s with reward := 0, ext_reward := fun _ => 0 }
    set sk := rebPhase s.time s0 (L.take k) with hsk
    have hfr := rebPhase_frame s.time (L.take k) s0
    have hNk : sk.nregion = s.nregion := hfr.1
    have hRk : sk.rebTime = s.rebTime := hfr.2.1
    have hgk : isGEdge sk.nregion (L.getD k ((0, 0), 0)).1 := by rw [hNk]; exact hg
    rw [rebPhase_take_succ s.time s0 L k hk, ← hsk]
    constructor
    · rw [rebEdge_rebFlow s.time sk _ _ hgk, hRk, updE_same]
    · exact min_le_left _ _
  · intro n hn
    unfold reb_step
    set s0 : Env := { s with reward := 0, ext_reward := fun _ => 0 }
    set s1 := rebPhase s.time s0 (E.zip act) with hs1
    have hfr := rebPhase_frame s.time (E.zip act) s0
    have h1 : ∀ m, m < s.nregion → 0 ≤ s1.acc m (s.time + 1) :=
      rebPhase_nonneg s.time s.nregion (E.zip act) s0 rfl hacc0
    have hledp : ∀ e ∈ E, 0 ≤ s1.rebFlow e s.time ∧ 0 ≤ s1.paxFlow e s.time := by
      intro e hm
      have hrt0 : ∀ ea ∈ E.zip act, isGEdge s0.nregion ea.1 →
          1 ≤ s0.rebTime ea.1.1 ea.1.2 s.time := by
        intro ea hmem hgea
        exact hrt ea.1 (List.of_mem_zip hmem).1 hgea
      rw [rebPhase_rebFlow_at_t s.time (E.zip act) s0 hrt0 e, hfr.2.2.2.1]
      exact hled e hm
    exact rebArriveFold_nonneg s.time s.nregion E s1 hfr.1 h1 hledp n hn

/-- Witness for C3 on the toy 2-region environment with the dedup edge list
and an over-requesting action. -/
theorem flow_clipping_witness :
    (∀ n, n < wEnv.nregion → 0 ≤ wEnv.acc n (wEnv.time + 1))
    ∧ (∀ e ∈ amodEdges 2, 0 ≤ wEnv.rebFlow e wEnv.time ∧ 0 ≤ wEnv.paxFlow e wEnv.time)
    ∧ (∀ e ∈ amodEdges 2, isGEdge wEnv.nregion e → 1 ≤ wEnv.rebTime e.1 e.2 wEnv.time)
    ∧ (∀ n, n < wEnv.nregion →
        0 ≤ (reb_step wEnv (amodEdges 2) [17, 23, 5, 99]).acc n (wEnv.time + 1)) :=
  ⟨by decide, by decide, by decide,
    (flow_clipping wEnv (amodEdges 2) [17, 23, 5, 99]
      (by decide) (by decide) (by decide)).2⟩

/-! ## C4: what the arrival fold adds, and when -/

theorem rebArriveFold_acc (t : Nat) (E : List (Nat × Nat)) (st : Env) (j : Nat) :
    (E.foldl (rebArrive t) st).acc j (t + 1)
      = st.acc j (t + 1)
        + (E.map fun e => if e.2 = j then
            (if isGEdge st.nregion e then st.rebFlow e t else 0) + st.paxFlow e t
          else 0).sum := by
  induction E generalizing st with
  | nil => simp
  | cons e rest ih =>
    rw [List.foldl_cons, ih (rebArrive t st e)]
    have hfr := rebArrive_frame t st e
    rw [hfr.1, hfr.2.1, hfr.2.2.1, rebArrive_acc]
    by_cases he : e.2 = j
    · rw [if_pos (⟨he.symm, rfl⟩ : j = e.2 ∧ t + 1 = t + 1)]
      simp only [List.map_cons, List.sum_cons, if_pos he]
      rw [he]
      ring
    · have hne : ¬(j = e.2 ∧ t + 1 = t + 1) := fun h => he h.1.symm
      rw [if_neg hne]
      simp only [List.map_cons, List.sum_cons, if_neg he]
      ring

/-- Turn a sum over a duplicate-free enumeration of all ordered pairs of
regions into a sum over the pair Finset. -/
theorem list_sum_pairs (N : Nat) (E : List (Nat × Nat)) (g : Nat × Nat → ℚ)
    (h1 : ∀ e ∈ E, e.1 < N ∧ e.2 < N)
    (h2 : ∀ i, i < N → ∀ j, j < N → (i, j) ∈ E) (hnd : E.Nodup) :
    (E.map g).sum = ((Finset.range N) ×ˢ (Finset.range N)).sum g := by
  have hfs : E.toFinset = (Finset.range N) ×ˢ (Finset.range N) := by
    ext e
    rw [List.mem_toFinset, Finset.mem_product, Finset.mem_range, Finset.mem_range]
    constructor
    · exact h1 e
    · intro h
      exact h2 e.1 h.1 e.2 h.2
  rw [← List.sum_toFinset g hnd, hfs]

/-- C4 (amended).  In each `reb_step` call at time `t`, after the edge loop,
exactly the `rebFlow`/`paxFlow` ledger entries recorded for arrival time
exactly `t` (the *current* step, not `t+1`) are added into `acc[*][t+1]`
(`rebFlow` entries only along graph edges); then the clock advances to `t+1`
and every graph edge's `time` attribute is refreshed from `rebTime` at the
new current time, other pairs keeping their attribute. -/
theorem reb_arrival_bookkeeping (s : Env) (E : List (Nat × Nat)) (act : List ℚ)
    (hE1 : ∀ e ∈ E, e.1 < s.nregion ∧ e.2 < s.nregion)
    (hE2 : ∀ i, i < s.nregion → ∀ j, j < s.nregion → (i, j) ∈ E)
    (hnd : E.Nodup) :
    (∀ j, j < s.nregion →
      (reb_step s E act).acc j (s.time + 1)
        = (rebPhase s.time { s with reward := 0, ext_reward := fun _ => 0 }
            (E.zip act)).acc j (s.time + 1)
          + (Finset.range s.nregion).sum (fun i =>
              (if i ≠ j then (rebPhase s.time { s with reward := 0, ext_reward := fun _ => 0 }
                  (E.zip act)).rebFlow (i, j) s.time else 0)
                + (rebPhase s.time { s with reward := 0, ext_reward := fun _ => 0 }
                    (E.zip act)).paxFlow (i, j) s.time))
    ∧ (reb_step s E act).time = s.time + 1
    ∧ (∀ e, isGEdge s.nregion e →
        (reb_step s E act).edgeTimeAttr e = some (s.rebTime e.1 e.2 (s.time + 1)))
    ∧ (∀ e, ¬ isGEdge s.nregion e →
        (reb_step s E act).edgeTimeAttr e = s.edgeTimeAttr e) := by
  set s0 : Env := { s with reward := 0, ext_reward := fun _ => 0 } with hs0
  set s1 := rebPhase s.time s0 (E.zip act) with hs1
  have hfr := rebPhase_frame s.time (E.zip act) s0
  have hN1 : s1.nregion = s.nregion := hfr.1
  refine ⟨?_, rfl, ?_, ?_⟩
  · intro j hj
    show (E.foldl (rebArrive s.time) s1).acc j (s.time + 1) = _
    rw [rebArriveFold_acc]
    congr 1
    rw [list_sum_pairs s.nregion E _
      (fun e he => hE1 e he) hE2 hnd, Finset.sum_product]
    have hj' : j ∈ Finset.range s.nregion := Finset.mem_range.mpr hj
    refine Finset.sum_congr rfl fun i hi => ?_
    rw [Finset.sum_ite_eq' (Finset.range s.nregion) j
      (fun y => (if isGEdge s1.nregion (i, y) then s1.rebFlow (i, y) s.time else 0)
        + s1.paxFlow (i, y) s.time), if_pos hj']
    congr 1
    have hiN : i < s.nregion := Finset.mem_range.mp hi
    by_cases hij : i ≠ j
    · rw [if_pos hij, if_pos]
      rw [hN1]
      exact ⟨hij, hiN, hj⟩
    · rw [if_neg hij, if_neg]
      rw [hN1]
      intro hcon
      exact hij hcon.1
  · intro e hg
    show (if isGEdge s.nregion e then some (s.rebTime e.1 e.2 (s.time + 1))
      else (E.foldl (rebArrive s.time) s1).edgeTimeAttr e) = _
    rw [if_pos hg]
  · intro e hg
    show (if isGEdge s.nregion e then some (s.rebTime e.1 e.2 (s.time + 1))
      else (E.foldl (rebArrive s.time) s1).edgeTimeAttr e) = _
    rw [if_neg hg, (rebArriveFold_frame s.time E s1).2.2.2.2.2.1, hfr.2.2.2.2.2.1]

/-- Witness for the amended C4 on the toy environment. -/
theorem reb_arrival_bookkeeping_witness :
    (∀ e ∈ amodEdges 2, e.1 < cEnv4.nregion ∧ e.2 < cEnv4.nregion)
    ∧ (∀ i, i < cEnv4.nregion → ∀ j, j < cEnv4.nregion → (i, j) ∈ amodEdges 2)
    ∧ (amodEdges 2).Nodup
    ∧ (reb_step cEnv4 (amodEdges 2) [0, 0, 0, 0]).time = cEnv4.time + 1 :=
  ⟨by decide, by decide, by decide,
    (reb_arrival_bookkeeping cEnv4 (amodEdges 2) [0, 0, 0, 0]
      (by decide) (by decide) (by decide)).2.1⟩

/-- C4 counterexample: at time `t = 1` with one vehicle recorded in
`rebFlow[(0,1)]` for arrival time `2 = t+1` and empty inventories, a zero
`reb_step` leaves `acc[1][2] = 0` — the entry with recorded arrival time
`t+1` is *not* folded in (only recorded time `t` would be), refuting the
claim that `acc[1][t+1]` receives the arrivals recorded for `t+1`. -/
theorem reb_arrival_counterexample :
    cEnv4.time = 1
    ∧ cEnv4.rebFlow (0, 1) (cEnv4.time + 1) = 1
    ∧ (reb_step cEnv4 (amodEdges 2) [0, 0, 0, 0]).acc 1 (cEnv4.time + 1) = 0
    ∧ ¬ ((reb_step cEnv4 (amodEdges 2) [0, 0, 0, 0]).acc 1 (cEnv4.time + 1)
          = cEnv4.acc 1 (cEnv4.time + 1) + cEnv4.rebFlow (0, 1) (cEnv4.time + 1)
            + cEnv4.paxFlow (0, 1) (cEnv4.time + 1)) := by
  refine ⟨rfl, by norm_num [cEnv4, wEnv], ?_, ?_⟩ <;>
    norm_num [reb_step, rebPhase, rebArrive, rebEdge, upd2, updE, amodEdges,
      amodEdgesRaw, adjacency, cEnv4, wEnv, isGEdge, List.dedup, List.pwFilter,
      List.range, List.range.loop]

/-! ## Frame lemmas for the matching folds -/

theorem regionBatch_frame (t n : Nat) (e : Env) :
    (regionBatch t n e).queue = e.queue
    ∧ (regionBatch t n e).acc = e.acc
    ∧ (regionBatch t n e).demand = e.demand
    ∧ (regionBatch t n e).price = e.price
    ∧ (regionBatch t n e).nregion = e.nregion
    ∧ (regionBatch t n e).unservedDemand = e.unservedDemand
    ∧ (regionBatch t n e).servedDemand = e.servedDemand
    ∧ (regionBatch t n e).paxFlow = e.paxFlow
    ∧ (regionBatch t n e).rebFlow = e.rebFlow
    ∧ (regionBatch t n e).time = e.time
    ∧ (regionBatch t n e).rngIdx = e.rngIdx
    ∧ (regionBatch t n e).demandTime = e.demandTime
    ∧ (regionBatch t n e).beta = e.beta
    ∧ (regionBatch t n e).reward = e.reward := by
  unfold regionBatch
  generalize adjacency e.nregion n = js
  induction js generalizing e with
  | nil => exact ⟨rfl, rfl, rfl, rfl, rfl, rfl, rfl, rfl, rfl, rfl, rfl, rfl, rfl, rfl⟩
  | cons j rest ih =>
    rw [List.foldl_cons]
    exact ih _

/-- One destination batch step: every field except the passenger store and
the arrivals counter is untouched. -/
theorem batchDest_frame (n t : Nat) (e : Env) (j : Nat) :
    (batchDest n t e j).queue = e.queue
    ∧ (batchDest n t e j).acc = e.acc
    ∧ (batchDest n t e j).demand = e.demand
    ∧ (batchDest n t e j).price = e.price
    ∧ (batchDest n t e j).nregion = e.nregion := by
  exact ⟨rfl, rfl, rfl, rfl, rfl⟩

theorem batchDest_passengers_ne (n t : Nat) (e : Env) (j : Nat) (m τ : Nat)
    (h : ¬(m = n ∧ τ = t)) :
    (batchDest n t e j).passengers m τ = e.passengers m τ := by
  show upd2 _ _ _ _ m τ = _
  rw [upd2_ne _ _ _ _ _ _ h]

/-- The passenger store after the destination loop, away from row `(n, t)`. -/
theorem regionBatch_passengers_ne (t n : Nat) (e : Env) (m τ : Nat)
    (h : ¬(m = n ∧ τ = t)) :
    (regionBatch t n e).passengers m τ = e.passengers m τ := by
  unfold regionBatch
  generalize adjacency e.nregion n = js
  induction js generalizing e with
  | nil => rfl
  | cons j rest ih =>
    rw [List.foldl_cons, ih (batchDest n t e j), batchDest_passengers_ne n t e j m τ h]

theorem pyShuffle42_nil {α : Type} : pyShuffle42 (α := α) [] = [] := rfl

/-- With no demand materializing out of region `n` at time `t` and an empty
incoming store, the destination loop shuffles empty lists only. -/
theorem regionBatch_passengers_row_empty (t n : Nat) (e : Env)
    (hdem : ∀ j, e.demand (n, j) t = 0)
    (hpass : e.passengers n t = []) :
    (regionBatch t n e).passengers n t = [] := by
  unfold regionBatch
  generalize adjacency e.nregion n = js
  induction js generalizing e with
  | nil => exact hpass
  | cons j rest ih =>
    rw [List.foldl_cons]
    refine ih (batchDest n t e j) (fun j2 => ?_) ?_
    · exact hdem j2
    · show upd2 _ _ _ _ n t = _
      rw [upd2_same, hpass]
      unfold genPassengers
      rw [hdem j]
      simp [pyShuffle42_nil]

theorem walkUnmatched_eq (t : Nat) (st : WalkSt) (p : Passenger) :
    walkUnmatched t st p
      = if maxWaitStep ≤ p.wait_time + 1 then
          { st with env := { st.env with
              unservedDemand := updE st.env.unservedDemand (p.origin, p.destination) t
                (st.env.unservedDemand (p.origin, p.destination) t + 1),
              info_unserved_demand := st.env.info_unserved_demand + 1 } }
        else { st with kept := st.kept ++ [bump p] } := rfl

theorem walkPax_zero (ω : Nat → Bool) (t n : Nat) (st : WalkSt) (p : Passenger)
    (h0 : st.accCur = 0) : walkPax ω t n st p = walkUnmatched t st p := by
  unfold walkPax
  rw [if_neg (by rw [h0]; simp)]

/-- A full walk with no vehicle available: every passenger takes an unmatched
update; survivors are the bumped sub-threshold passengers in order, and each
abandoning passenger adds one unit of unserved demand for its OD pair at the
*current* step `t`. -/
theorem walk_zero (ω : Nat → Bool) (t n : Nat) :
    ∀ (l : List Passenger) (st : WalkSt), st.accCur = 0 →
      (l.foldl (walkPax ω t n) st).accCur = 0
      ∧ (l.foldl (walkPax ω t n) st).kept = st.kept ++ keptFilter l
      ∧ (∀ e τ, (l.foldl (walkPax ω t n) st).env.unservedDemand e τ
          = st.env.unservedDemand e τ
            + (if τ = t then (abandonsTo l e : ℚ) else 0))
      ∧ (l.foldl (walkPax ω t n) st).env.queue = st.env.queue
      ∧ (l.foldl (walkPax ω t n) st).env.acc = st.env.acc
      ∧ (l.foldl (walkPax ω t n) st).env.passengers = st.env.passengers
      ∧ (l.foldl (walkPax ω t n) st).env.demand = st.env.demand
      ∧ (l.foldl (walkPax ω t n) st).env.price = st.env.price
      ∧ (l.foldl (walkPax ω t n) st).env.nregion = st.env.nregion
      ∧ (l.foldl (walkPax ω t n) st).env.time = st.env.time := by
  intro l
  induction l with
  | nil =>
    intro st h0
    refine ⟨h0, by simp [keptFilter], fun e τ => by simp [abandonsTo],
      rfl, rfl, rfl, rfl, rfl, rfl, rfl⟩
  | cons p rest ih =>
    intro st h0
    rw [List.foldl_cons, walkPax_zero ω t n st p h0, walkUnmatched_eq]
    by_cases hab : maxWaitStep ≤ p.wait_time + 1
    · rw [if_pos hab]
      set st2 : WalkSt := { st with env := { st.env with
          unservedDemand := updE st.env.unservedDemand (p.origin, p.destination) t
            (st.env.unservedDemand (p.origin, p.destination) t + 1),
          info_unserved_demand := st.env.info_unserved_demand + 1 } } with hst2
      obtain ⟨c1, c2, c3, c4, c5, c6, c7, c8, c9, c10⟩ := ih st2 h0
      refine ⟨c1, ?_, ?_, c4, c5, c6, c7, c8, c9, c10⟩
      · rw [c2]
        show st.kept ++ _ = _
        congr 1
        unfold keptFilter
        rw [List.filter_cons, if_neg (by simp; omega)]
      · intro e τ
        rw [c3 e τ]
        show updE _ _ _ _ e τ + _ = _
        by_cases hτ : τ = t
        · subst hτ
          by_cases he : e = (p.origin, p.destination)
          · subst he
            rw [updE_same, if_pos rfl, if_pos rfl]
            unfold abandonsTo
            rw [List.filter_cons, if_pos (by simp [hab])]
            push_cast [List.length_cons]
            ring
          · rw [updE_ne _ _ _ _ _ _ (by
              intro hc
              exact he hc.1), if_pos rfl, if_pos rfl]
            unfold abandonsTo
            rw [List.filter_cons, if_neg (by
              simp only [decide_eq_true_eq, Bool.and_eq_true]
              intro hc
              exact he (by
                rcases hc with ⟨hc1, -⟩
                exact hc1.symm ▸ rfl))]
        · rw [updE_ne _ _ _ _ _ _ (by
            intro hc
            exact hτ hc.2), if_neg hτ, if_neg hτ]
    · rw [if_neg hab]
      set st2 : WalkSt := { st with kept := st.kept ++ [bump p] } with hst2
      obtain ⟨c1, c2, c3, c4, c5, c6, c7, c8, c9, c10⟩ := ih st2 h0
      refine ⟨c1, ?_, ?_, c4, c5, c6, c7, c8, c9, c10⟩
      · rw [c2]
        show (st.kept ++ [bump p]) ++ _ = _
        rw [List.append_assoc]
        congr 1
        unfold keptFilter
        rw [List.filter_cons, if_pos (by simp; omega)]
        rfl
      · intro e τ
        rw [c3 e τ]
        show st.env.unservedDemand e τ + _ = _
        congr 1
        by_cases hτ : τ = t
        · subst hτ
          rw [if_pos rfl, if_pos rfl]
          unfold abandonsTo
          rw [List.filter_cons, if_neg (by
            simp only [decide_eq_true_eq, Bool.and_eq_true]
            intro hc
            exact hab hc.2)]
        · rw [if_neg hτ, if_neg hτ]

/-- One region's matching pass when the region has no vehicles at `t`, no
incoming demand and an empty passenger store: the queue is walked unmatched,
survivors stay in FIFO order (bumped), abandons are booked at step `t`. -/
theorem matchRegion_zero (ω : Nat → Bool) (t : Nat) (e : Env) (n : Nat)
    (hacc : e.acc n t = 0)
    (hdem : ∀ j, e.demand (n, j) t = 0)
    (hpass : e.passengers n t = []) :
    (∀ m, m ≠ n → (matchRegion ω t e n).queue m = e.queue m)
    ∧ (matchRegion ω t e n).queue n = keptFilter (e.queue n)
    ∧ (∀ x τ, (matchRegion ω t e n).unservedDemand x τ
        = e.unservedDemand x τ + (if τ = t then (abandonsTo (e.queue n) x : ℚ) else 0))
    ∧ (∀ m τ, ¬(m = n ∧ τ = t + 1) → (matchRegion ω t e n).acc m τ = e.acc m τ)
    ∧ (matchRegion ω t e n).acc n (t + 1) = 0
    ∧ (∀ m τ, ¬(m = n ∧ τ = t) → (matchRegion ω t e n).passengers m τ = e.passengers m τ)
    ∧ (matchRegion ω t e n).passengers n t = []
    ∧ (matchRegion ω t e n).demand = e.demand
    ∧ (matchRegion ω t e n).price = e.price
    ∧ (matchRegion ω t e n).nregion = e.nregion
    ∧ (matchRegion ω t e n).time = e.time := by
  have hfr := regionBatch_frame t n e
  have hrow := regionBatch_passengers_row_empty t n e hdem hpass
  set e1 := regionBatch t n e with he1
  have hqcur : e1.queue n ++ e1.passengers n t = e.queue n := by
    rw [hrow, hfr.1, List.append_nil]
  set e2 : Env := { e1 with queue := upd1 e1.queue n (e1.queue n ++ e1.passengers n t) }
    with he2
  have h0 : (⟨e1.acc n t, e2, []⟩ : WalkSt).accCur = 0 := by
    show e1.acc n t = 0
    rw [hfr.2.1]
    exact hacc
  obtain ⟨c1, c2, c3, c4, c5, c6, c7, c8, c9, c10⟩ :=
    walk_zero ω t n (e1.queue n ++ e1.passengers n t) ⟨e1.acc n t, e2, []⟩ h0
  set stF := (e1.queue n ++ e1.passengers n t).foldl (walkPax ω t n)
    ⟨e1.acc n t, e2, []⟩ with hstF
  have hgoal : matchRegion ω t e n
      = { stF.env with
          queue := upd1 stF.env.queue n stF.kept,
          acc := upd2 stF.env.acc n (t + 1) stF.accCur } := rfl
  rw [hgoal]
  have henvq : stF.env.queue = e2.queue := c4
  have henva : stF.env.acc = e.acc := by
    rw [c5]
    show e1.acc = e.acc
    exact hfr.2.1
  have henvp : stF.env.passengers = e1.passengers := c6
  refine ⟨?_, ?_, ?_, ?_, ?_, ?_, ?_, ?_, ?_, ?_, ?_⟩
  · intro m hm
    show upd1 _ _ _ m = _
    rw [upd1_ne _ _ _ _ hm, henvq]
    show upd1 _ _ _ m = _
    rw [upd1_ne _ _ _ _ hm, hfr.1]
  · show upd1 _ _ _ n = _
    rw [upd1_same, c2, hqcur]
    rfl
  · intro x τ
    show stF.env.unservedDemand x τ = _
    rw [c3 x τ, hqcur]
    show e1.unservedDemand x τ + _ = _
    rw [hfr.2.2.2.2.2.1]
  · intro m τ hm
    show upd2 _ _ _ _ m τ = _
    rw [upd2_ne _ _ _ _ _ _ hm, henva]
  · show upd2 _ _ _ _ n (t + 1) = _
    rw [upd2_same, c1]
  · intro m τ hm
    rw [show ({ stF.env with
          queue := upd1 stF.env.queue n stF.kept,
          acc := upd2 stF.env.acc n (t + 1) stF.accCur } : Env).passengers
        = stF.env.passengers from rfl, henvp]
    exact regionBatch_passengers_ne t n e m τ hm
  · rw [show ({ stF.env with
          queue := upd1 stF.env.queue n stF.kept,
          acc := upd2 stF.env.acc n (t + 1) stF.accCur } : Env).passengers
        = stF.env.passengers from rfl, henvp]
    exact hrow
  · show stF.env.demand = _
    rw [c7]
    show e1.demand = _
    exact hfr.2.2.1
  · show stF.env.price = _
    rw [c8]
    show e1.price = _
    exact hfr.2.2.2.1
  · show stF.env.nregion = _
    rw [c9]
    show e1.nregion = _
    exact hfr.2.2.2.2.1
  · show stF.env.time = _
    rw [c10]
    show e1.time = _
    exact hfr.2.2.2.2.2.2.2.2.2.1

/-- Folding the zero-capacity matching pass over a duplicate-free list of
regions. -/
theorem matchFold_zero (ω : Nat → Bool) (t : Nat) :
    ∀ (ns : List Nat) (e : Env), ns.Nodup →
      (∀ m ∈ ns, e.acc m t = 0) →
      (∀ m ∈ ns, ∀ j, e.demand (m, j) t = 0) →
      (∀ m ∈ ns, e.passengers m t = []) →
      (∀ m ∈ ns, (ns.foldl (matchRegion ω t) e).queue m = keptFilter (e.queue m))
      ∧ (∀ m, m ∉ ns → (ns.foldl (matchRegion ω t) e).queue m = e.queue m)
      ∧ (∀ x τ, (ns.foldl (matchRegion ω t) e).unservedDemand x τ
          = e.unservedDemand x τ
            + (if τ = t then (((ns.map fun m => abandonsTo (e.queue m) x).sum : Nat) : ℚ)
              else 0))
      ∧ (ns.foldl (matchRegion ω t) e).demand = e.demand
      ∧ (ns.foldl (matchRegion ω t) e).nregion = e.nregion
      ∧ (∀ m τ, ¬(m ∈ ns ∧ τ = t + 1) → (ns.foldl (matchRegion ω t) e).acc m τ = e.acc m τ)
      ∧ (∀ m τ, ¬(m ∈ ns ∧ τ = t) →
          (ns.foldl (matchRegion ω t) e).passengers m τ = e.passengers m τ) := by
  intro ns
  induction ns with
  | nil =>
    intro e _ _ _ _
    refine ⟨fun m hm => absurd hm (List.not_mem_nil m), fun m _ => rfl,
      fun x τ => by simp, rfl, rfl, fun m τ _ => rfl, fun m τ _ => rfl⟩
  | cons n rest ih =>
    intro e hnd hacc hdem hpass
    obtain ⟨hn, hndr⟩ := List.nodup_cons.mp hnd
    obtain ⟨r1, r2, r3, r4, r5, r6, r7, r8, r9, r10, r11⟩ :=
      matchRegion_zero ω t e n (hacc n (List.mem_cons_self n rest))
        (hdem n (List.mem_cons_self n rest)) (hpass n (List.mem_cons_self n rest))
    set e2 := matchRegion ω t e n with he2
    have hacc2 : ∀ m ∈ rest, e2.acc m t = 0 := by
      intro m hm
      rw [r4 m t (by omega)]
      exact hacc m (List.mem_cons_of_mem n hm)
    have hdem2 : ∀ m ∈ rest, ∀ j, e2.demand (m, j) t = 0 := by
      intro m hm j
      rw [r8]
      exact hdem m (List.mem_cons_of_mem n hm) j
    have hpass2 : ∀ m ∈ rest, e2.passengers m t = [] := by
      intro m hm
      rw [r6 m t (by
        rintro ⟨hmn, -⟩
        exact hn (hmn ▸ hm))]
      exact hpass m (List.mem_cons_of_mem n hm)
    obtain ⟨c1, c2, c3, c4, c5, c6, c7⟩ := ih e2 hndr hacc2 hdem2 hpass2
    rw [List.foldl_cons]
    refine ⟨?_, ?_, ?_, c4.trans r8, c5.trans r10, ?_, ?_⟩
    · intro m hm
      rcases List.mem_cons.mp hm with hmn | hmr
      · subst hmn
        rw [c2 m (fun hc => hn hc), r2]
      · rw [c1 m hmr, r1 m (fun hc => hn (hc ▸ hmr))]
    · intro m hm
      have hmn : m ≠ n := fun hc => hm (hc ▸ List.mem_cons_self n rest)
      have hmr : m ∉ rest := fun hc => hm (List.mem_cons_of_mem n hc)
      rw [c2 m hmr, r1 m hmn]
    · intro x τ
      rw [c3 x τ, r3 x τ]
      by_cases hτ : τ = t
      · subst hτ
        rw [if_pos rfl, if_pos rfl, if_pos rfl]
        have hqs : ∀ m ∈ rest, e2.queue m = e.queue m := by
          intro m hm
          exact r1 m (fun hc => hn (hc ▸ hm))
        have hmap : rest.map (fun m => abandonsTo (e2.queue m) x)
            = rest.map (fun m => abandonsTo (e.queue m) x) := by
          refine List.map_congr_left fun m hm => ?_
          rw [hqs m hm]
        rw [hmap]
        push_cast [List.map_cons, List.sum_cons]
        ring
      · rw [if_neg hτ, if_neg hτ, if_neg hτ]
        ring
    · intro m τ hm
      have h1 : ¬(m ∈ rest ∧ τ = t + 1) := by
        rintro ⟨hc1, hc2⟩
        exact hm ⟨List.mem_cons_of_mem n hc1, hc2⟩
      have h2 : ¬(m = n ∧ τ = t + 1) := by
        rintro ⟨hc1, hc2⟩
        exact hm ⟨hc1 ▸ List.mem_cons_self n rest, hc2⟩
      rw [c6 m τ h1, r4 m τ h2]
    · intro m τ hm
      have h1 : ¬(m ∈ rest ∧ τ = t) := by
        rintro ⟨hc1, hc2⟩
        exact hm ⟨List.mem_cons_of_mem n hc1, hc2⟩
      have h2 : ¬(m = n ∧ τ = t) := by
        rintro ⟨hc1, hc2⟩
        exact hm ⟨hc1 ▸ List.mem_cons_self n rest, hc2⟩
      rw [c7 m τ h1, r6 m τ h2]

theorem abandonsTo_zero_of_origin (l : List Passenger) (m o d : Nat)
    (horig : ∀ p ∈ l, p.origin = m) (hne : m ≠ o) :
    abandonsTo l (o, d) = 0 := by
  unfold abandonsTo
  rw [List.length_eq_zero, List.filter_eq_nil_iff]
  intro p hp
  simp only [decide_eq_true_eq, Bool.and_eq_true, not_and]
  intro hc
  exact absurd (congrArg Prod.fst hc) (by
    rw [horig p hp]
    exact fun h => hne h)

theorem map_sum_single (N o : Nat) (f : Nat → Nat)
    (hz : ∀ m, m < N → m ≠ o → f m = 0) :
    ((List.range N).map f).sum = if o < N then f o else 0 := by
  induction N with
  | zero => simp
  | succ N ih =>
    rw [List.range_succ, List.map_append, List.sum_append]
    rw [ih (fun m hm => hz m (Nat.lt_succ_of_lt hm))]
    by_cases ho : o = N
    · subst ho
      rw [if_neg (lt_irrefl o), if_pos (Nat.lt_succ_self o)]
      simp
    · by_cases holt : o < N
      · rw [if_pos holt, if_pos (Nat.lt_succ_of_lt holt)]
        simp [hz N (Nat.lt_succ_self N) (fun h => ho h.symm)]
      · rw [if_neg holt, if_neg (by omega)]
        simp [hz N (Nat.lt_succ_self N) (fun h => ho h.symm)]

/-- C5 (amended).  With no vehicles and no fresh demand, every queued
passenger whose bumped wait counter reaches MAX_WAIT_STEP during the call is
removed from its region's queue in that same call, and contributes exactly
one unit to `unservedDemand[origin, destination]` indexed at the *current*
step (the abandonment step), not the passenger's original request time;
survivors stay, bumped, in FIFO order. -/
theorem abandonment_bookkeeping (ω : Nat → Bool) (s : Env)
    (hacc : ∀ m, m < s.nregion → s.acc m s.time = 0)
    (hdem : ∀ m j, s.demand (m, j) s.time = 0)
    (hpass : ∀ m, s.passengers m s.time = [])
    (hqo : ∀ m, m < s.nregion → ∀ p ∈ s.queue m, p.origin = m) :
    (∀ n, n < s.nregion →
      (match_step_simple ω s).queue n = keptFilter (s.queue n))
    ∧ (∀ o d τ, (match_step_simple ω s).unservedDemand (o, d) τ
        = s.unservedDemand (o, d) τ
          + (if τ = s.time ∧ o < s.nregion
              then (abandonsTo (s.queue o) (o, d) : ℚ) else 0)) := by
  obtain ⟨c1, c2, c3, c4, c5, c6, c7⟩ := matchFold_zero ω s.time
    (List.range s.nregion) { s with reward := 0, ext_reward := fun _ => 0 }
    (List.nodup_range _) (fun m hm => hacc m (List.mem_range.mp hm))
    (fun m _ j => hdem m j) (fun m _ => hpass m)
  constructor
  · intro n hn
    exact c1 n (List.mem_range.mpr hn)
  · intro o d τ
    show ((List.range s.nregion).foldl (matchRegion ω s.time)
        { s with reward := 0, ext_reward := fun _ => 0 }).unservedDemand (o, d) τ = _
    rw [c3 (o, d) τ]
    show s.unservedDemand (o, d) τ + _ = _
    congr 1
    have hsum : ((List.range s.nregion).map
        (fun m => abandonsTo (s.queue m) (o, d))).sum
        = if o < s.nregion then abandonsTo (s.queue o) (o, d) else 0 :=
      map_sum_single s.nregion o _ (fun m hm hmo =>
        abandonsTo_zero_of_origin (s.queue m) m o d (hqo m hm) hmo)
    by_cases hτ : τ = s.time
    · subst hτ
      rw [if_pos rfl]
      show (((List.range s.nregion).map
          (fun m => abandonsTo (s.queue m) (o, d))).sum : ℚ) = _
      rw [hsum]
      by_cases ho : o < s.nregion
      · rw [if_pos ho, if_pos ⟨rfl, ho⟩]
      · rw [if_neg ho, if_neg (by
          rintro ⟨-, hc⟩
          exact ho hc)]
        norm_num
    · rw [if_neg hτ, if_neg (by
        rintro ⟨hc, -⟩
        exact hτ hc)]

/-- C5 counterexample: the passenger (requested at time 5) abandons during
the `match_step_simple` call at time 16 and is booked under
`unservedDemand[0,1]` at key 16 — the entry at its request time 5 stays 0,
refuting indexing ``at the passenger's original request time''; it is
removed from the queue in the same call. -/
theorem abandonment_counterexample :
    cEnv5.queue 0 = [(⟨0, 1, 5, 2, 11, false⟩ : Passenger)]
    ∧ cEnv5.time = 16
    ∧ (match_step_simple (fun _ => false) cEnv5).unservedDemand (0, 1) 16 = 1
    ∧ (match_step_simple (fun _ => false) cEnv5).unservedDemand (0, 1) 5 = 0
    ∧ (match_step_simple (fun _ => false) cEnv5).queue 0 = []
    ∧ (1 : ℚ) ≠ 0 := by
  obtain ⟨c1, c2, c3, c4, c5, c6, c7⟩ := matchFold_zero (fun _ => false) cEnv5.time
    (List.range cEnv5.nregion) { cEnv5 with reward := 0, ext_reward := fun _ => 0 }
    (List.nodup_range _) (by decide) (fun m _ j => rfl) (fun m _ => rfl)
  refine ⟨rfl, rfl, ?_, ?_, ?_, by norm_num⟩
  · show ((List.range cEnv5.nregion).foldl (matchRegion (fun _ => false) cEnv5.time)
        { cEnv5 with reward := 0, ext_reward := fun _ => 0 }).unservedDemand (0, 1) 16 = 1
    rw [c3 (0, 1) 16, if_pos (show (16 : Nat) = cEnv5.time from rfl)]
    have hsum : (((List.range cEnv5.nregion).map
        (fun m => abandonsTo
          (({ cEnv5 with reward := 0, ext_reward := fun _ => 0 } : Env).queue m)
          (0, 1))).sum : Nat) = 1 := by decide
    rw [hsum]
    show (0 : ℚ) + ((1 : Nat) : ℚ) = 1
    norm_num
  · show ((List.range cEnv5.nregion).foldl (matchRegion (fun _ => false) cEnv5.time)
        { cEnv5 with reward := 0, ext_reward := fun _ => 0 }).unservedDemand (0, 1) 5 = 0
    rw [c3 (0, 1) 5, if_neg (by decide)]
    show (0 : ℚ) + 0 = 0
    norm_num
  · show ((List.range cEnv5.nregion).foldl (matchRegion (fun _ => false) cEnv5.time)
        { cEnv5 with reward := 0, ext_reward := fun _ => 0 }).queue 0 = []
    rw [c1 0 (by decide)]
    decide

/-- Witness for the amended C5 at the concrete abandonment state. -/
theorem abandonment_bookkeeping_witness :
    (∀ m, m < cEnv5.nregion → cEnv5.acc m cEnv5.time = 0)
    ∧ (∀ m, m < cEnv5.nregion → ∀ p ∈ cEnv5.queue m, p.origin = m)
    ∧ (∀ n, n < cEnv5.nregion →
        (match_step_simple (fun _ => true) cEnv5).queue n = keptFilter (cEnv5.queue n)) :=
  ⟨by decide, by decide,
    (abandonment_bookkeeping (fun _ => true) cEnv5 (by decide) (fun m j => rfl)
      (fun m => rfl) (by decide)).1⟩

/-! ## C10: self-loop action components are ignored -/

theorem rebPhase_selfloop_agree (t : Nat) :
    ∀ (E : List (Nat × Nat)) (act1 act2 : List ℚ) (st : Env),
      (∀ k, k < E.length → (E.getD k (0, 0)).1 ≠ (E.getD k (0, 0)).2 →
        act1.getD k 0 = act2.getD k 0) →
      act1.length = E.length → act2.length = E.length →
      rebPhase t st (E.zip act1) = rebPhase t st (E.zip act2) := by
  intro E
  induction E with
  | nil => intro act1 act2 st _ _ _; rfl
  | cons e rest ih =>
    intro act1 act2 st hagree hl1 hl2
    match act1, act2 with
    | a1 :: r1, a2 :: r2 =>
      rw [List.zip_cons_cons, List.zip_cons_cons, rebPhase_cons, rebPhase_cons]
      have hrest : ∀ k, k < rest.length → (rest.getD k (0, 0)).1 ≠ (rest.getD k (0, 0)).2 →
          r1.getD k 0 = r2.getD k 0 := by
        intro k hk hdiag
        have := hagree (k + 1) (by simpa using Nat.succ_lt_succ hk)
        simpa using this (by simpa using hdiag)
      by_cases hee : e.1 = e.2
      · have hskip : ¬ isGEdge st.nregion e := fun h => h.1 hee
        rw [rebEdge_skip t st e a1 hskip, rebEdge_skip t st e a2 hskip]
        exact ih r1 r2 st hrest (by simpa using hl1) (by simpa using hl2)
      · have ha : a1 = a2 := by
          have := hagree 0 (by simp) (by simpa using hee)
          simpa using this
        rw [ha]
        exact ih r1 r2 (rebEdge t st e a2) hrest (by simpa using hl1) (by simpa using hl2)

/-- C10.  The edge list built by `AMoD.__init__` contains the self-loop
`(i,i)` for every region, and `reb_step` ignores the action components that
sit on self-loop positions: two rebalancing actions that agree on every
non-self-loop position produce identical states (inventories, ledgers,
`dacc`, reward and info counters alike). -/
theorem selfloop_ignored (s : Env) (E : List (Nat × Nat)) (act1 act2 : List ℚ)
    (hl1 : act1.length = E.length) (hl2 : act2.length = E.length)
    (hagree : ∀ k, k < E.length → (E.getD k (0, 0)).1 ≠ (E.getD k (0, 0)).2 →
      act1.getD k 0 = act2.getD k 0) :
    (∀ i, i < s.nregion → (i, i) ∈ amodEdges s.nregion)
    ∧ reb_step s E act1 = reb_step s E act2 := by
  constructor
  · intro i hi
    unfold amodEdges
    rw [List.mem_dedup]
    unfold amodEdgesRaw
    rw [List.mem_flatMap]
    exact ⟨i, List.mem_range.mpr hi, List.mem_cons_self _ _⟩
  · have h := rebPhase_selfloop_agree s.time E act1 act2
      { s with reward := 0, ext_reward := fun _ => 0 } hagree hl1 hl2
    simp only [reb_step]
    rw [h]

/-- Witness for C10: actions differing only on the self-loop positions of
the dedup edge list of the 2-region environment. -/
theorem selfloop_ignored_witness :
    ([7, 2, 9, 3] : List ℚ).length = (amodEdges 2).length
    ∧ ([1, 2, 4, 3] : List ℚ).length = (amodEdges 2).length
    ∧ (∀ k, k < (amodEdges 2).length →
        ((amodEdges 2).getD k (0, 0)).1 ≠ ((amodEdges 2).getD k (0, 0)).2 →
        ([7, 2, 9, 3] : List ℚ).getD k 0 = ([1, 2, 4, 3] : List ℚ).getD k 0)
    ∧ reb_step wEnv (amodEdges 2) [7, 2, 9, 3]
        = reb_step wEnv (amodEdges 2) [1, 2, 4, 3] :=
  ⟨by decide, by decide, by decide,
    (selfloop_ignored wEnv (amodEdges 2) [7, 2, 9, 3] [1, 2, 4, 3]
      (by decide) (by decide) (by decide)).2⟩

/-! ## C7: the caller's scenario graph is aliased and mutated -/

/-- C7 (code bug).  `__init__` line 21 deep-copies the scenario, but line 23
binds `self.G` to `scenario.G` — the caller's graph object, not the copy —
and line 61 then writes the `time` attribute onto its edges (as does every
`reb_step`, line 272).  Constructing the environment therefore mutates the
caller's scenario graph: edge `(0,1)` has no `time` attribute beforehand and
carries one afterwards, contradicting the code's own deep-copy comment and
the spec's claim that the caller's scenario is never modified.  The
environment's edge-attribute view is the caller's. -/
theorem scenario_graph_alias_mutation :
    scWitness.gEdgeTimeAttr (0, 1) = none
    ∧ (callerScenarioAfterInit scWitness).gEdgeTimeAttr (0, 1) = some 1
    ∧ (callerScenarioAfterInit scWitness).gEdgeTimeAttr (0, 1)
        ≠ scWitness.gEdgeTimeAttr (0, 1)
    ∧ (amodInit scWitness 0 (1 / 5)).edgeTimeAttr
        = (callerScenarioAfterInit scWitness).gEdgeTimeAttr := by
  refine ⟨rfl, by decide, by decide, rfl⟩

/-! ## C8: what reset reinitializes, and what it leaves behind -/

theorem zeroRows_eq (pairs : List (Nat × Nat)) (f : Nat × Nat → Nat → ℚ)
    (e : Nat × Nat) (t : Nat) :
    zeroRows pairs f e t = if e ∈ pairs then 0 else f e t := by
  induction pairs generalizing f with
  | nil => simp [zeroRows]
  | cons p rest ih =>
    show zeroRows rest (fun e t => if e = p then 0 else f e t) e t = _
    rw [ih]
    by_cases hm : e ∈ rest
    · rw [if_pos hm, if_pos (List.mem_cons_of_mem p hm)]
    · by_cases hp : e = p
      · rw [if_neg hm, if_pos hp, if_pos (hp ▸ List.mem_cons_self p rest)]
      · rw [if_neg hm, if_neg hp, if_neg (by
          rw [List.mem_cons]
          rintro (hc | hc)
          exacts [hp hc, hm hc])]

theorem mem_scenarioEdges (N i j : Nat) (hi : i < N) (hj : j < N) :
    (i, j) ∈ scenarioEdges N := by
  unfold scenarioEdges
  rw [List.mem_append]
  by_cases hij : i = j
  · right
    rw [List.mem_map]
    exact ⟨i, List.mem_range.mpr hi, by rw [hij]⟩
  · left
    rw [List.mem_flatMap]
    refine ⟨i, List.mem_range.mpr hi, ?_⟩
    rw [List.mem_map]
    refine ⟨j, ?_, rfl⟩
    unfold adjacency
    rw [List.mem_filter]
    exact ⟨List.mem_range.mpr hj, by simpa using fun hc => hij hc.symm⟩

theorem trips_cover (N tf2 : Nat) (p : Nat × Nat → ℚ) (npP : Nat → Nat)
    (start : Nat) (htf : 1 ≤ tf2) (i j : Nat) (hi : i < N) (hj : j < N) :
    (i, j) ∈ ((getRandomDemand N tf2 p npP start).1.map fun a => (a.o, a.d)) := by
  rw [List.mem_map]
  have hes : (i, j) ∈ scenarioEdges N := mem_scenarioEdges N i j hi hj
  obtain ⟨k, hk, hget⟩ := List.getElem_of_mem hes
  have hkl : k < (scenarioEdges N).enum.length := by
    rw [List.enum_length]
    exact hk
  have henum : (k, (i, j)) ∈ (scenarioEdges N).enum := by
    rw [List.mk_mem_enum_iff_getElem?, List.getElem?_eq_getElem hk, hget]
  refine ⟨⟨i, j, 0, npP (start + N + 0 * (scenarioEdges N).length + k), p (i, j)⟩,
    ?_, rfl⟩
  show _ ∈ (getRandomDemand N tf2 p npP start).1
  unfold getRandomDemand
  rw [List.mem_flatMap]
  refine ⟨0, List.mem_range.mpr htf, ?_⟩
  rw [List.mem_map]
  exact ⟨(k, (i, j)), henum, rfl⟩

/-- C8 (amended).  `reset()` reinitializes `acc` (to `accInit` at time 0),
`dacc`, `rebFlow`, `paxFlow`, the queues and passenger stores, regenerates
demand/price from fresh draws of the global numpy stream (advancing it), and
zeroes `servedDemand`/`unservedDemand` for every OD pair carrying demand
(all pairs, when the horizon is positive); time is 0 and the observation is
the fresh `(acc, 0, dacc, demand)`.  However, the cumulative `info`
diagnostics and the `depDemand`/`arrDemand` ledgers are *not* reset — they
keep their pre-reset values. -/
theorem reset_reinitializes (s : Env) (npP : Nat → Nat) (htf : 1 ≤ s.tf) :
    (∀ n, n < s.nregion → (reset s npP).acc n 0 = (s.accInit n : ℚ))
    ∧ (∀ n τ, τ ≠ 0 → (reset s npP).acc n τ = 0)
    ∧ (reset s npP).time = 0
    ∧ (reset s npP).dacc = (fun _ _ => 0)
    ∧ (reset s npP).rebFlow = (fun _ _ => 0)
    ∧ (reset s npP).paxFlow = (fun _ _ => 0)
    ∧ (∀ n, (reset s npP).queue n = [])
    ∧ (∀ n t, (reset s npP).passengers n t = [])
    ∧ (reset s npP).reward = 0
    ∧ (reset s npP).demand
        = demandOf (getRandomDemand s.nregion (2 * s.tf) s.scenP npP s.npIdx).1
    ∧ (reset s npP).npIdx
        = s.npIdx + s.nregion + 2 * s.tf * (scenarioEdges s.nregion).length
    ∧ (∀ e : Nat × Nat, e.1 < s.nregion → e.2 < s.nregion → ∀ τ,
        (reset s npP).servedDemand e τ = 0 ∧ (reset s npP).unservedDemand e τ = 0)
    ∧ (reset s npP).obs = ((reset s npP).acc, 0, (reset s npP).dacc, (reset s npP).demand)
    ∧ (reset s npP).info_revenue = s.info_revenue
    ∧ (reset s npP).info_served_demand = s.info_served_demand
    ∧ (reset s npP).info_unserved_demand = s.info_unserved_demand
    ∧ (reset s npP).info_rebalancing_cost = s.info_rebalancing_cost
    ∧ (reset s npP).info_operating_cost = s.info_operating_cost
    ∧ (reset s npP).info_served_waiting = s.info_served_waiting
    ∧ (reset s npP).depDemand = s.depDemand
    ∧ (reset s npP).arrDemand = s.arrDemand
    ∧ (reset s npP).edgeTimeAttr = s.edgeTimeAttr := by
  refine ⟨?_, ?_, rfl, rfl, rfl, rfl, fun n => rfl, fun n t => rfl, rfl, rfl, rfl,
    ?_, rfl, rfl, rfl, rfl, rfl, rfl, rfl, rfl, rfl, rfl⟩
  · intro n hn
    show (if n < s.nregion ∧ (0 : Nat) = 0 then (s.accInit n : ℚ) else 0) = _
    rw [if_pos ⟨hn, rfl⟩]
  · intro n τ hτ
    show (if n < s.nregion ∧ τ = 0 then (s.accInit n : ℚ) else 0) = 0
    rw [if_neg (by
      rintro ⟨-, hc⟩
      exact hτ hc)]
  · intro e he1 he2 τ
    have hmem : e ∈ ((getRandomDemand s.nregion (2 * s.tf) s.scenP npP s.npIdx).1.map
        fun a => (a.o, a.d)) := by
      have := trips_cover s.nregion (2 * s.tf) s.scenP npP s.npIdx (by omega) e.1 e.2 he1 he2
      simpa using this
    constructor
    · show zeroRows _ _ e τ = 0
      rw [zeroRows_eq, if_pos hmem]
    · show zeroRows _ _ e τ = 0
      rw [zeroRows_eq, if_pos hmem]

/-- Witness for the amended C8 at a dirty post-episode environment. -/
theorem reset_reinitializes_witness :
    1 ≤ cEnv8.tf
    ∧ (reset cEnv8 (fun k => k)).time = 0
    ∧ (reset cEnv8 (fun k => k)).info_unserved_demand = cEnv8.info_unserved_demand :=
  ⟨by decide, (reset_reinitializes cEnv8 (fun k => k) (by decide)).2.2.1,
    (reset_reinitializes cEnv8 (fun k => k) (by decide)).2.2.2.2.2.2.2.2.2.2.2.2.2.2.2.1⟩

/-- C8 counterexample: after `reset()` the cumulative `info` diagnostics and
the `depDemand`/`arrDemand` ledgers still carry the previous episode's
values (5, 3 and 7 here) instead of reflecting only the new episode — a
freshly constructed environment starts them at 0. -/
theorem reset_counterexample :
    cEnv8.info_unserved_demand = 5
    ∧ (reset cEnv8 (fun k => k)).info_unserved_demand = 5
    ∧ (reset cEnv8 (fun k => k)).depDemand 0 0 = 3
    ∧ (reset cEnv8 (fun k => k)).arrDemand 0 0 = 7
    ∧ (amodInit scWitness 0 (1 / 5)).info_unserved_demand = 0
    ∧ ((5 : ℚ) ≠ 0 ∧ (3 : ℚ) ≠ 0 ∧ (7 : ℚ) ≠ 0) := by
  exact ⟨rfl, rfl, rfl, rfl, rfl, by norm_num⟩

/-! ## C9: determinism -/

/-- C9 counterexample: with everything fixed (same environment, same global
numpy outcome stream), two consecutive runs of `reset()` followed by the
same (empty) action sequence see different demand draws: `reset` continues
the global stream instead of re-seeding it, so the second run's Poisson
draws come from later stream positions (by design, episodes are
decorrelated) — the runs are not bit-identical. -/
theorem determinism_counterexample :
    (reset wEnv (fun k => k)).demand (0, 1) 0 = 2
    ∧ (reset (reset wEnv (fun k => k)) (fun k => k)).demand (0, 1) 0 = 20
    ∧ ((2 : ℚ) ≠ 20) := by
  refine ⟨?_, ?_, by norm_num⟩ <;>
    norm_num [reset, getRandomDemand, demandOf, scenarioEdges, adjacency, updE,
      wEnv, List.range, List.range.loop, List.enum, List.enumFrom, List.filter]

/-- C9 (amended).  The per-step pipeline is a deterministic function of the
oracle streams: two runs that are given pointwise-equal numpy streams and
pointwise-equal match-acceptance streams produce identical states after
`reset`, after matching, and after rebalancing with the same action. -/
theorem determinism_given_streams (s : Env) (npP1 npP2 : Nat → Nat)
    (ω1 ω2 : Nat → Bool) (E : List (Nat × Nat)) (act : List ℚ)
    (hnp : ∀ k, npP1 k = npP2 k) (hω : ∀ k, ω1 k = ω2 k) :
    reset s npP1 = reset s npP2
    ∧ match_step_simple ω1 (reset s npP1) = match_step_simple ω2 (reset s npP2)
    ∧ reb_step (match_step_simple ω1 (reset s npP1)) E act
        = reb_step (match_step_simple ω2 (reset s npP2)) E act := by
  have h1 : npP1 = npP2 := funext hnp
  have h2 : ω1 = ω2 := funext hω
  subst h1
  subst h2
  exact ⟨rfl, rfl, rfl⟩

/-- Witness for the amended C9. -/
theorem determinism_given_streams_witness :
    (∀ k : Nat, (fun k : Nat => k) k = (fun k : Nat => k) k)
    ∧ (∀ k : Nat, (fun _ : Nat => true) k = (fun _ : Nat => true) k)
    ∧ reset wEnv (fun k => k) = reset wEnv (fun k => k) :=
  ⟨fun _ => rfl, fun _ => rfl,
    (determinism_given_streams wEnv (fun k => k) (fun k => k) (fun _ => true)
      (fun _ => true) [] [] (fun _ => rfl) (fun _ => rfl)).1⟩

/-! ## C6: the shuffle discipline of the incoming batch -/

theorem mem_listSwap {α : Type} (l : List α) (i j : Nat) (x : α)
    (h : x ∈ listSwap l i j) : x ∈ l := by
  unfold listSwap at h
  split at h
  case _ a b hga hgb =>
    rcases List.mem_or_eq_of_mem_set h with h2 | h2
    · rcases List.mem_or_eq_of_mem_set h2 with h3 | h3
      · exact h3
      · exact h3 ▸ List.get?_mem hgb
    · exact h2 ▸ List.get?_mem hga
  case _ => exact h

theorem mem_fyAux {α : Type} (x : α) :
    ∀ (i : Nat) (l : List α) (idx : Nat), x ∈ fyAux l i idx → x ∈ l := by
  intro i
  induction i with
  | zero => intro l idx h; exact h
  | succ i ih =>
    intro l idx h
    exact mem_listSwap _ _ _ _ (ih _ _ h)

theorem mem_pyShuffle42 {α : Type} (l : List α) (x : α)
    (h : x ∈ pyShuffle42 l) : x ∈ l :=
  mem_fyAux x _ l 0 h

theorem mem_genPassengers (o d t : Nat) (dem p : ℚ) (x : Passenger)
    (h : x ∈ genPassengers o d t dem p) :
    x = ⟨o, d, t, p, 0, false⟩ := by
  unfold genPassengers at h
  exact List.eq_of_mem_replicate h

/-- Every passenger of the iterated incoming batch is fresh: wait 0, origin
`n`, destination a neighbour of `n`. -/
theorem iterShuffledBatch_mem (s : Env) (t n : Nat) :
    ∀ p ∈ iterShuffledBatch s t n,
      p.wait_time = 0 ∧ p.origin = n ∧ p.destination ∈ adjacency s.nregion n := by
  unfold iterShuffledBatch
  have : ∀ (js : List Nat) (L : List Passenger),
      (∀ p ∈ L, p.wait_time = 0 ∧ p.origin = n ∧ p.destination ∈ adjacency s.nregion n) →
      (∀ j ∈ js, j ∈ adjacency s.nregion n) →
      ∀ p ∈ js.foldl
        (fun l j => pyShuffle42 (l ++ genPassengers n j t (s.demand (n, j) t) (s.price (n, j) t)))
        L,
        p.wait_time = 0 ∧ p.origin = n ∧ p.destination ∈ adjacency s.nregion n := by
    intro js
    induction js with
    | nil => intro L hL _ p hp; exact hL p hp
    | cons j rest ih =>
      intro L hL hjs p hp
      rw [List.foldl_cons] at hp
      refine ih _ ?_ (fun j2 hj2 => hjs j2 (List.mem_cons_of_mem j hj2)) p hp
      intro q hq
      rcases List.mem_append.mp (mem_pyShuffle42 _ q hq) with h2 | h2
      · exact hL q h2
      · rw [mem_genPassengers n j t _ _ q h2]
        exact ⟨rfl, rfl, hjs j (List.mem_cons_self j rest)⟩
  exact this (adjacency s.nregion n) [] (fun p hp => absurd hp (List.not_mem_nil p))
    (fun j hj => hj)

theorem walkPax_frame (ω : Nat → Bool) (t n : Nat) (st : WalkSt) (p : Passenger) :
    (walkPax ω t n st p).env.queue = st.env.queue
    ∧ (walkPax ω t n st p).env.passengers = st.env.passengers
    ∧ (walkPax ω t n st p).env.acc = st.env.acc
    ∧ (walkPax ω t n st p).env.demand = st.env.demand
    ∧ (walkPax ω t n st p).env.price = st.env.price
    ∧ (walkPax ω t n st p).env.nregion = st.env.nregion
    ∧ (walkPax ω t n st p).env.time = st.env.time
    ∧ (walkPax ω t n st p).env.rebFlow = st.env.rebFlow := by
  unfold walkPax walkUnmatched
  dsimp only
  split
  · split
    · exact ⟨rfl, rfl, rfl, rfl, rfl, rfl, rfl, rfl⟩
    · split
      · exact ⟨rfl, rfl, rfl, rfl, rfl, rfl, rfl, rfl⟩
      · exact ⟨rfl, rfl, rfl, rfl, rfl, rfl, rfl, rfl⟩
  · split
    · exact ⟨rfl, rfl, rfl, rfl, rfl, rfl, rfl, rfl⟩
    · exact ⟨rfl, rfl, rfl, rfl, rfl, rfl, rfl, rfl⟩

theorem walkFold_frame (ω : Nat → Bool) (t n : Nat) (l : List Passenger) :
    ∀ st : WalkSt,
      (l.foldl (walkPax ω t n) st).env.queue = st.env.queue
      ∧ (l.foldl (walkPax ω t n) st).env.passengers = st.env.passengers
      ∧ (l.foldl (walkPax ω t n) st).env.acc = st.env.acc
      ∧ (l.foldl (walkPax ω t n) st).env.demand = st.env.demand
      ∧ (l.foldl (walkPax ω t n) st).env.price = st.env.price
      ∧ (l.foldl (walkPax ω t n) st).env.nregion = st.env.nregion
      ∧ (l.foldl (walkPax ω t n) st).env.time = st.env.time
      ∧ (l.foldl (walkPax ω t n) st).env.rebFlow = st.env.rebFlow := by
  induction l with
  | nil => intro st; exact ⟨rfl, rfl, rfl, rfl, rfl, rfl, rfl, rfl⟩
  | cons p rest ih =>
    intro st
    rw [List.foldl_cons]
    obtain ⟨h1, h2, h3, h4, h5, h6, h7, h8⟩ := ih (walkPax ω t n st p)
    obtain ⟨g1, g2, g3, g4, g5, g6, g7, g8⟩ := walkPax_frame ω t n st p
    exact ⟨h1.trans g1, h2.trans g2, h3.trans g3, h4.trans g4, h5.trans g5,
      h6.trans g6, h7.trans g7, h8.trans g8⟩

/-- Effects of one region's matching pass on the data other regions read. -/
theorem matchRegion_frame (ω : Nat → Bool) (t : Nat) (e : Env) (m : Nat) :
    (matchRegion ω t e m).demand = e.demand
    ∧ (matchRegion ω t e m).price = e.price
    ∧ (matchRegion ω t e m).nregion = e.nregion
    ∧ (matchRegion ω t e m).time = e.time
    ∧ (∀ n', n' ≠ m → (matchRegion ω t e m).queue n' = e.queue n')
    ∧ (∀ n' τ, ¬(n' = m ∧ τ = t) →
        (matchRegion ω t e m).passengers n' τ = e.passengers n' τ)
    ∧ (∀ n' τ, ¬(n' = m ∧ τ = t + 1) →
        (matchRegion ω t e m).acc n' τ = e.acc n' τ) := by
  have hb := regionBatch_frame t m e
  set e1 := regionBatch t m e with he1
  set qcur := e1.queue m ++ e1.passengers m t with hqcur
  set e2 : Env := { e1 with queue := upd1 e1.queue m qcur } with he2
  set stF := qcur.foldl (walkPax ω t m) ⟨e1.acc m t, e2, []⟩ with hstF
  obtain ⟨w1, w2, w3, w4, w5, w6, w7, w8⟩ := walkFold_frame ω t m qcur ⟨e1.acc m t, e2, []⟩
  have hgoal : matchRegion ω t e m
      = { stF.env with
          queue := upd1 stF.env.queue m stF.kept,
          acc := upd2 stF.env.acc m (t + 1) stF.accCur } := rfl
  rw [hgoal]
  refine ⟨?_, ?_, ?_, ?_, ?_, ?_, ?_⟩
  · show stF.env.demand = _
    rw [w4]
    exact hb.2.2.1
  · show stF.env.price = _
    rw [w5]
    show e1.price = _
    exact (regionBatch_frame t m e).2.2.2.1
  · show stF.env.nregion = _
    rw [w6]
    show e1.nregion = _
    exact (regionBatch_frame t m e).2.2.2.2.1
  · show stF.env.time = _
    rw [w7]
    show e1.time = _
    exact (regionBatch_frame t m e).2.2.2.2.2.2.2.2.2.1
  · intro n' hn'
    show upd1 _ _ _ n' = _
    rw [upd1_ne _ _ _ _ hn', w1]
    show upd1 _ _ _ n' = _
    rw [upd1_ne _ _ _ _ hn']
    show e1.queue n' = _
    rw [hb.1]
  · intro n' τ hn'
    show stF.env.passengers n' τ = _
    rw [w2]
    show e1.passengers n' τ = _
    exact regionBatch_passengers_ne t m e n' τ hn'
  · intro n' τ hn'
    show upd2 _ _ _ _ n' τ = _
    rw [upd2_ne _ _ _ _ _ _ hn', w3]
    show e1.acc n' τ = _
    rw [hb.2.1]

theorem regionBatch_passengers_iter (t n : Nat) (e : Env)
    (hpass : e.passengers n t = []) :
    (regionBatch t n e).passengers n t = iterShuffledBatch e t n := by
  have key : ∀ (js : List Nat) (e2 : Env) (L : List Passenger),
      e2.passengers n t = L → e2.demand = e.demand → e2.price = e.price →
      (js.foldl (batchDest n t) e2).passengers n t
        = js.foldl (fun l j => pyShuffle42
            (l ++ genPassengers n j t (e.demand (n, j) t) (e.price (n, j) t))) L := by
    intro js
    induction js with
    | nil => intro e2 L h1 _ _; exact h1
    | cons j rest ih =>
      intro e2 L h1 h2 h3
      rw [List.foldl_cons, List.foldl_cons]
      refine ih (batchDest n t e2 j) _ ?_ h2 h3
      show upd2 _ _ _ _ n t = _
      rw [upd2_same, h1, h2, h3]
  exact key (adjacency e.nregion n) e [] hpass rfl rfl

/-- One region's matching pass with an empty store and no vehicles: the
post-call queue is the old queue followed by the *iterated* shuffled batch,
all bumped, with over-threshold passengers dropped. -/
theorem matchRegion_batch (ω : Nat → Bool) (t : Nat) (e : Env) (n : Nat)
    (hacc : e.acc n t = 0)
    (hpass : e.passengers n t = []) :
    (matchRegion ω t e n).queue n
      = keptFilter (e.queue n ++ iterShuffledBatch e t n) := by
  have hb := regionBatch_frame t n e
  have hiter := regionBatch_passengers_iter t n e hpass
  set e1 := regionBatch t n e with he1
  set qcur := e1.queue n ++ e1.passengers n t with hqcur
  set e2 : Env := { e1 with queue := upd1 e1.queue n qcur } with he2
  have h0 : (⟨e1.acc n t, e2, []⟩ : WalkSt).accCur = 0 := by
    show e1.acc n t = 0
    rw [hb.2.1]
    exact hacc
  obtain ⟨c1, c2, c3, c4, c5, c6, c7, c8, c9, c10⟩ :=
    walk_zero ω t n qcur ⟨e1.acc n t, e2, []⟩ h0
  set stF := qcur.foldl (walkPax ω t n) ⟨e1.acc n t, e2, []⟩ with hstF
  have hgoal : matchRegion ω t e n
      = { stF.env with
          queue := upd1 stF.env.queue n stF.kept,
          acc := upd2 stF.env.acc n (t + 1) stF.accCur } := rfl
  rw [hgoal]
  show upd1 _ _ _ n = _
  rw [upd1_same, c2]
  show keptFilter qcur = _
  rw [hqcur, hiter, hb.1]

theorem iterShuffledBatch_congr (s1 s2 : Env) (t n : Nat)
    (h1 : s1.nregion = s2.nregion) (h2 : s1.demand = s2.demand)
    (h3 : s1.price = s2.price) :
    iterShuffledBatch s1 t n = iterShuffledBatch s2 t n := by
  unfold iterShuffledBatch
  rw [h1, h2, h3]

theorem matchFold_frame (ω : Nat → Bool) (t : Nat) :
    ∀ (ns : List Nat) (e : Env) (n : Nat), n ∉ ns →
      (ns.foldl (matchRegion ω t) e).queue n = e.queue n
      ∧ (ns.foldl (matchRegion ω t) e).passengers n t = e.passengers n t
      ∧ (ns.foldl (matchRegion ω t) e).acc n t = e.acc n t
      ∧ (ns.foldl (matchRegion ω t) e).demand = e.demand
      ∧ (ns.foldl (matchRegion ω t) e).price = e.price
      ∧ (ns.foldl (matchRegion ω t) e).nregion = e.nregion := by
  intro ns
  induction ns with
  | nil => intro e n _; exact ⟨rfl, rfl, rfl, rfl, rfl, rfl⟩
  | cons m rest ih =>
    intro e n hn
    have hnm : n ≠ m := fun hc => hn (hc ▸ List.mem_cons_self m rest)
    have hnr : n ∉ rest := fun hc => hn (List.mem_cons_of_mem m hc)
    obtain ⟨f1, f2, f3, f4, f5, f6, f7⟩ := matchRegion_frame ω t e m
    obtain ⟨g1, g2, g3, g4, g5, g6⟩ := ih (matchRegion ω t e m) n hnr
    rw [List.foldl_cons]
    exact ⟨g1.trans (f5 n hnm), g2.trans (f6 n t (fun hc => hnm hc.1)),
      g3.trans (f7 n t (fun hc => by omega)),
      g4.trans f1, g5.trans f2, g6.trans f3⟩

theorem matchFold_queue_at (ω : Nat → Bool) (t : Nat) :
    ∀ (ns : List Nat) (e : Env) (n : Nat), ns.Nodup → n ∈ ns →
      e.acc n t = 0 → e.passengers n t = [] →
      (ns.foldl (matchRegion ω t) e).queue n
        = keptFilter (e.queue n ++ iterShuffledBatch e t n) := by
  intro ns
  induction ns with
  | nil => intro e n _ hmem; exact absurd hmem (List.not_mem_nil n)
  | cons m rest ih =>
    intro e n hnd hmem hacc hpass
    obtain ⟨hm, hndr⟩ := List.nodup_cons.mp hnd
    rw [List.foldl_cons]
    rcases List.mem_cons.mp hmem with hnm | hnr
    · subst hnm
      have hq := matchRegion_batch ω t e n hacc hpass
      obtain ⟨g1, -, -, -, -, -⟩ := matchFold_frame ω t rest (matchRegion ω t e n) n hm
      rw [g1, hq]
    · obtain ⟨f1, f2, f3, f4, f5, f6, f7⟩ := matchRegion_frame ω t e m
      have hnm : n ≠ m := fun hc => hm (hc ▸ hnr)
      have hih := ih (matchRegion ω t e m) n hndr hnr
        ((f7 n t (fun hc => by omega)).trans hacc)
        ((f6 n t (fun hc => hnm hc.1)).trans hpass)
      rw [hih, f5 n hnm,
        iterShuffledBatch_congr (matchRegion ω t e m) e t n f3 f1 f2]

/-- C6 (amended).  The fixed-seed shuffle is applied once per *destination*
per region per step — after each destination's batch is appended, the whole
accumulated incoming batch of that step is reshuffled — and only to that
step's incoming batch; previously queued passengers keep their FIFO order
ahead of the (iteratively) shuffled new batch.  Stated for a region with no
vehicles at `t` (so the walk leaves order visible) and no abandonment due. -/
theorem shuffle_per_destination (ω : Nat → Bool) (s : Env) (n : Nat)
    (hacc : s.acc n s.time = 0)
    (hpass : s.passengers n s.time = [])
    (hq : ∀ p ∈ s.queue n, p.wait_time + 1 < maxWaitStep)
    (hn : n < s.nregion) :
    (match_step_simple ω s).queue n
      = (s.queue n).map bump ++ (iterShuffledBatch s s.time n).map bump := by
  show ((List.range s.nregion).foldl (matchRegion ω s.time)
      { s with reward := 0, ext_reward := fun _ => 0 }).queue n = _
  rw [matchFold_queue_at ω s.time (List.range s.nregion)
    { s with reward := 0, ext_reward := fun _ => 0 } n (List.nodup_range _)
    (List.mem_range.mpr hn) hacc hpass]
  have hiter : iterShuffledBatch { s with reward := 0, ext_reward := fun _ => 0 } s.time n
      = iterShuffledBatch s s.time n := rfl
  unfold keptFilter
  rw [hiter]
  show ((s.queue n ++ iterShuffledBatch s s.time n).filter _).map bump = _
  rw [List.filter_append, List.map_append]
  congr 1
  · congr 1
    rw [List.filter_eq_self]
    intro p hp
    simpa using hq p hp
  · congr 1
    rw [List.filter_eq_self]
    intro p hp
    have := (iterShuffledBatch_mem s s.time n p hp).1
    simp [this, maxWaitStep]

/-- C6 counterexample.  With three new passengers (destinations 1, 2, 3) in
region 0 and no prior queue, the code's per-destination reshuffling leaves the
batch in destination order [1, 2, 3], while a single once-per-region shuffle
of the whole incoming batch would give [2, 1, 3]. -/
theorem shuffle_once_counterexample :
    ((match_step_simple (fun _ => false) cEnv6).queue 0).map Passenger.destination
        = [1, 2, 3]
    ∧ (specQueueAfterEnter cEnv6 0 0).map Passenger.destination = [2, 1, 3]
    ∧ ([1, 2, 3] : List Nat) ≠ ([2, 1, 3] : List Nat) := by
  refine ⟨by decide, by decide, by decide⟩

/-- Witness for `shuffle_per_destination` at the concrete state `cEnv6`. -/
theorem shuffle_per_destination_witness :
    (match_step_simple (fun _ => true) cEnv6).queue 0
      = (cEnv6.queue 0).map bump ++ (iterShuffledBatch cEnv6 cEnv6.time 0).map bump :=
  shuffle_per_destination (fun _ => true) cEnv6 0 rfl rfl
    (by intro p hp; exact absurd hp (List.not_mem_nil p)) (by decide)

theorem walkPax_frame2 (ω : Nat → Bool) (t n : Nat) (st : WalkSt) (p : Passenger) :
    (walkPax ω t n st p).env.demandTime = st.env.demandTime
    ∧ (walkPax ω t n st p).env.rebTime = st.env.rebTime := by
  unfold walkPax walkUnmatched
  dsimp only
  split
  · split
    · exact ⟨rfl, rfl⟩
    · split
      · exact ⟨rfl, rfl⟩
      · exact ⟨rfl, rfl⟩
  · split
    · exact ⟨rfl, rfl⟩
    · exact ⟨rfl, rfl⟩

theorem walkFold_frame2 (ω : Nat → Bool) (t n : Nat) (l : List Passenger) :
    ∀ st : WalkSt,
      (l.foldl (walkPax ω t n) st).env.demandTime = st.env.demandTime
      ∧ (l.foldl (walkPax ω t n) st).env.rebTime = st.env.rebTime := by
  induction l with
  | nil => intro st; exact ⟨rfl, rfl⟩
  | cons p rest ih =>
    intro st
    rw [List.foldl_cons]
    obtain ⟨h1, h2⟩ := ih (walkPax ω t n st p)
    obtain ⟨g1, g2⟩ := walkPax_frame2 ω t n st p
    exact ⟨h1.trans g1, h2.trans g2⟩

/-- One queued passenger either leaves `accCur` and `paxFlow` alone, or
consumes one vehicle and records one unit in `paxFlow` at arrival key
`t + demandTime[o][d][t]`. -/
theorem walkPax_proj (ω : Nat → Bool) (t n : Nat) (st : WalkSt) (p : Passenger) :
    ((walkPax ω t n st p).accCur = st.accCur
        ∧ (walkPax ω t n st p).env.paxFlow = st.env.paxFlow)
    ∨ ((walkPax ω t n st p).accCur = st.accCur - 1
        ∧ (walkPax ω t n st p).env.paxFlow
            = updE st.env.paxFlow (p.origin, p.destination)
                (t + st.env.demandTime p.origin p.destination t)
                (st.env.paxFlow (p.origin, p.destination)
                  (t + st.env.demandTime p.origin p.destination t) + 1)) := by
  unfold walkPax walkUnmatched
  dsimp only
  split
  · split
    · right; exact ⟨rfl, rfl⟩
    · split
      · left; exact ⟨rfl, rfl⟩
      · left; exact ⟨rfl, rfl⟩
  · split
    · left; exact ⟨rfl, rfl⟩
    · left; exact ⟨rfl, rfl⟩

/-- One queued passenger conserves `accCur` plus the in-window `paxFlow`
in-flight sum. -/
theorem walkPax_inflight (ω : Nat → Bool) (t n N B : Nat) (st : WalkSt)
    (p : Passenger) (hp1 : p.origin < N) (hp2 : p.destination < N)
    (hB : t + st.env.demandTime p.origin p.destination t < B) :
    (walkPax ω t n st p).accCur
        + ledgerSum N t B (walkPax ω t n st p).env.paxFlow
      = st.accCur + ledgerSum N t B st.env.paxFlow := by
  rcases walkPax_proj ω t n st p with ⟨h1, h2⟩ | ⟨h1, h2⟩
  · rw [h1, h2]
  · rw [h1, h2, ledgerSum_updE_mem N t B st.env.paxFlow (p.origin, p.destination)
      _ _ hp1 hp2 (Nat.le_add_right t _) hB]
    ring

/-- The whole queue walk conserves `accCur` plus the in-window `paxFlow`
in-flight sum. -/
theorem walk_inflight (ω : Nat → Bool) (t n N B : Nat)
    (DT : Nat → Nat → Nat → Nat)
    (hB : ∀ o d, o < N → d < N → t + DT o d t < B) :
    ∀ (l : List Passenger) (st : WalkSt),
      st.env.demandTime = DT →
      (∀ p ∈ l, p.origin < N ∧ p.destination < N) →
      (l.foldl (walkPax ω t n) st).accCur
          + ledgerSum N t B (l.foldl (walkPax ω t n) st).env.paxFlow
        = st.accCur + ledgerSum N t B st.env.paxFlow := by
  intro l
  induction l with
  | nil => intro st _ _; rfl
  | cons p rest ih =>
    intro st hDT hbd
    rw [List.foldl_cons]
    have hp := hbd p (List.mem_cons_self p rest)
    have hstep := walkPax_inflight ω t n N B st p hp.1 hp.2
      (by rw [hDT]; exact hB p.origin p.destination hp.1 hp.2)
    have hDT2 : (walkPax ω t n st p).env.demandTime = DT :=
      (walkPax_frame2 ω t n st p).1.trans hDT
    rw [ih (walkPax ω t n st p) hDT2
      (fun q hq => hbd q (List.mem_cons_of_mem p hq)), hstep]

theorem regionBatch_frame2 (t n : Nat) (e : Env) :
    (regionBatch t n e).rebTime = e.rebTime := by
  unfold regionBatch
  generalize adjacency e.nregion n = js
  induction js generalizing e with
  | nil => rfl
  | cons j rest ih =>
    rw [List.foldl_cons]
    exact ih _

/-- Every passenger of the post-batch store row `(n, t)` is either an old
entry of the row or a fresh passenger with origin `n` and a neighbouring
destination. -/
theorem regionBatch_row_mem (t n : Nat) (e : Env) :
    ∀ p ∈ (regionBatch t n e).passengers n t,
      p ∈ e.passengers n t
      ∨ (p.origin = n ∧ p.destination ∈ adjacency e.nregion n) := by
  have key : ∀ (js : List Nat) (e2 : Env),
      (∀ p ∈ e2.passengers n t, p ∈ e.passengers n t
        ∨ (p.origin = n ∧ p.destination ∈ adjacency e.nregion n)) →
      (∀ j ∈ js, j ∈ adjacency e.nregion n) →
      ∀ p ∈ (js.foldl (batchDest n t) e2).passengers n t,
        p ∈ e.passengers n t
        ∨ (p.origin = n ∧ p.destination ∈ adjacency e.nregion n) := by
    intro js
    induction js with
    | nil => intro e2 h _ p hp; exact h p hp
    | cons j rest ih =>
      intro e2 h hjs p hp
      rw [List.foldl_cons] at hp
      refine ih (batchDest n t e2 j) ?_
        (fun j2 hj2 => hjs j2 (List.mem_cons_of_mem j hj2)) p hp
      intro q hq
      have hrow : (batchDest n t e2 j).passengers n t
          = pyShuffle42 (e2.passengers n t
              ++ genPassengers n j t (e2.demand (n, j) t) (e2.price (n, j) t)) := by
        show upd2 _ _ _ _ n t = _
        rw [upd2_same]
      rw [hrow] at hq
      rcases List.mem_append.mp (mem_pyShuffle42 _ q hq) with h2 | h2
      · exact h q h2
      · rw [mem_genPassengers n j t _ _ q h2]
        exact Or.inr ⟨rfl, hjs j (List.mem_cons_self j rest)⟩
  exact key (adjacency e.nregion n) e (fun p hp => Or.inl hp) (fun j hj => hj)

/-- One region's matching call conserves ground vehicles plus the in-window
`paxFlow` in-flight sum: the region's row-`t` inventory is split between the
overwritten `acc[n][t+1]` cell and new `paxFlow` entries. -/
theorem matchRegion_inflight (ω : Nat → Bool) (t B N : Nat) (e : Env) (n : Nat)
    (hN : e.nregion = N) (hn : n < N)
    (hB : ∀ o d, o < N → d < N → t + e.demandTime o d t < B)
    (hq : ∀ p ∈ e.queue n, p.origin < N ∧ p.destination < N)
    (hps : ∀ p ∈ e.passengers n t, p.origin < N ∧ p.destination < N) :
    rowSum N (matchRegion ω t e n).acc (t + 1)
        + ledgerSum N t B (matchRegion ω t e n).paxFlow
      = rowSum N e.acc (t + 1) - e.acc n (t + 1) + e.acc n t
        + ledgerSum N t B e.paxFlow := by
  obtain ⟨b1, b2, b3, b4, b5, b6, b7, b8, b9, b10, b11, b12, b13, b14⟩ :=
    regionBatch_frame t n e
  set e1 := regionBatch t n e with he1
  set qcur := e1.queue n ++ e1.passengers n t with hqcur
  set e2 : Env := { e1 with queue := upd1 e1.queue n qcur } with he2
  have hbd : ∀ p ∈ qcur, p.origin < N ∧ p.destination < N := by
    intro p hp
    rcases List.mem_append.mp hp with h2 | h2
    · rw [b1] at h2
      exact hq p h2
    · rcases regionBatch_row_mem t n e p h2 with h3 | h3
      · exact hps p h3
      · refine ⟨by rw [h3.1]; exact hn, ?_⟩
        have hd := h3.2
        unfold adjacency at hd
        have := List.mem_range.mp (List.mem_filter.mp hd).1
        rw [hN] at this
        exact this
  obtain ⟨w1, w2, w3, w4, w5, w6, w7, w8⟩ :=
    walkFold_frame ω t n qcur ⟨e1.acc n t, e2, []⟩
  have hwalk : (qcur.foldl (walkPax ω t n) ⟨e1.acc n t, e2, []⟩).accCur
        + ledgerSum N t B
            (qcur.foldl (walkPax ω t n) ⟨e1.acc n t, e2, []⟩).env.paxFlow
      = e1.acc n t + ledgerSum N t B e2.paxFlow :=
    walk_inflight ω t n N B e.demandTime hB qcur ⟨e1.acc n t, e2, []⟩
      (show e2.demandTime = e.demandTime from b12) hbd
  set stF := qcur.foldl (walkPax ω t n) ⟨e1.acc n t, e2, []⟩ with hstF
  rw [b2] at hwalk
  rw [show e2.paxFlow = e.paxFlow from b8] at hwalk
  have hgoal : matchRegion ω t e n
      = { stF.env with
          queue := upd1 stF.env.queue n stF.kept,
          acc := upd2 stF.env.acc n (t + 1) stF.accCur } := rfl
  rw [hgoal]
  show rowSum N (upd2 stF.env.acc n (t + 1) stF.accCur) (t + 1)
      + ledgerSum N t B stF.env.paxFlow = _
  rw [w3, show e2.acc = e.acc from b2,
    rowSum_upd2_same N e.acc n (t + 1) stF.accCur hn]
  linarith [hwalk]

theorem matchRegion_frame3 (ω : Nat → Bool) (t : Nat) (e : Env) (m : Nat) :
    (matchRegion ω t e m).rebFlow = e.rebFlow
    ∧ (matchRegion ω t e m).rebTime = e.rebTime
    ∧ (matchRegion ω t e m).demandTime = e.demandTime := by
  obtain ⟨b1, b2, b3, b4, b5, b6, b7, b8, b9, b10, b11, b12, b13, b14⟩ :=
    regionBatch_frame t m e
  have brt := regionBatch_frame2 t m e
  set e1 := regionBatch t m e with he1
  set qcur := e1.queue m ++ e1.passengers m t with hqcur
  set e2 : Env := { e1 with queue := upd1 e1.queue m qcur } with he2
  obtain ⟨w1, w2, w3, w4, w5, w6, w7, w8⟩ :=
    walkFold_frame ω t m qcur ⟨e1.acc m t, e2, []⟩
  obtain ⟨x1, x2⟩ := walkFold_frame2 ω t m qcur ⟨e1.acc m t, e2, []⟩
  set stF := qcur.foldl (walkPax ω t m) ⟨e1.acc m t, e2, []⟩ with hstF
  have hgoal : matchRegion ω t e m
      = { stF.env with
          queue := upd1 stF.env.queue m stF.kept,
          acc := upd2 stF.env.acc m (t + 1) stF.accCur } := rfl
  rw [hgoal]
  refine ⟨?_, ?_, ?_⟩
  · show stF.env.rebFlow = _
    rw [w8]
    exact b9
  · show stF.env.rebTime = _
    rw [x2]
    exact brt
  · show stF.env.demandTime = _
    rw [x1]
    exact b12

theorem matchFold_frame3 (ω : Nat → Bool) (t : Nat) :
    ∀ (ns : List Nat) (e : Env),
      (ns.foldl (matchRegion ω t) e).nregion = e.nregion
      ∧ (ns.foldl (matchRegion ω t) e).time = e.time
      ∧ (ns.foldl (matchRegion ω t) e).rebFlow = e.rebFlow
      ∧ (ns.foldl (matchRegion ω t) e).rebTime = e.rebTime
      ∧ (ns.foldl (matchRegion ω t) e).demandTime = e.demandTime
      ∧ (∀ n τ, τ ≠ t + 1 → (ns.foldl (matchRegion ω t) e).acc n τ = e.acc n τ) := by
  intro ns
  induction ns with
  | nil => intro e; exact ⟨rfl, rfl, rfl, rfl, rfl, fun _ _ _ => rfl⟩
  | cons m rest ih =>
    intro e
    rw [List.foldl_cons]
    obtain ⟨h1, h2, h3, h4, h5, h6⟩ := ih (matchRegion ω t e m)
    obtain ⟨f1, f2, f3, f4, f5, f6, f7⟩ := matchRegion_frame ω t e m
    obtain ⟨g1, g2, g3⟩ := matchRegion_frame3 ω t e m
    exact ⟨h1.trans f3, h2.trans f4, h3.trans g1, h4.trans g2, h5.trans g3,
      fun n τ hτ => (h6 n τ hτ).trans (f7 n τ (fun hc => hτ hc.2))⟩

/-- The region fold of `match_step_simple` conserves ground-plus-in-flight:
each region's row-`t` stock moves into `acc[.][t+1]` and new `paxFlow`
entries. -/
theorem matchFold_inflight (ω : Nat → Bool) (t B N : Nat) :
    ∀ (ns : List Nat) (e : Env), e.nregion = N → ns.Nodup →
      (∀ n ∈ ns, n < N) →
      (∀ o d, o < N → d < N → t + e.demandTime o d t < B) →
      (∀ n ∈ ns, ∀ p ∈ e.queue n, p.origin < N ∧ p.destination < N) →
      (∀ n ∈ ns, ∀ p ∈ e.passengers n t, p.origin < N ∧ p.destination < N) →
      rowSum N (ns.foldl (matchRegion ω t) e).acc (t + 1)
          + ledgerSum N t B (ns.foldl (matchRegion ω t) e).paxFlow
        = rowSum N e.acc (t + 1) + ledgerSum N t B e.paxFlow
          + (ns.map fun n => e.acc n t - e.acc n (t + 1)).sum := by
  intro ns
  induction ns with
  | nil => intro e _ _ _ _ _ _; simp
  | cons m rest ih =>
    intro e hN hnd hlt hB hq hps
    obtain ⟨hm, hndr⟩ := List.nodup_cons.mp hnd
    rw [List.foldl_cons]
    obtain ⟨f1, f2, f3, f4, f5, f6, f7⟩ := matchRegion_frame ω t e m
    obtain ⟨g1, g2, g3⟩ := matchRegion_frame3 ω t e m
    have hstep := matchRegion_inflight ω t B N e m hN
      (hlt m (List.mem_cons_self m rest)) hB
      (hq m (List.mem_cons_self m rest)) (hps m (List.mem_cons_self m rest))
    have hih := ih (matchRegion ω t e m) (f3.trans hN) hndr
      (fun n hn => hlt n (List.mem_cons_of_mem m hn))
      (by rw [g3]; exact hB)
      (fun n hn p hp => hq n (List.mem_cons_of_mem m hn) p
        (by rw [← f5 n (fun hc => hm (hc ▸ hn))]; exact hp))
      (fun n hn p hp => hps n (List.mem_cons_of_mem m hn) p
        (by rw [← f6 n t (fun hc => hm (hc.1 ▸ hn))]; exact hp))
    rw [hih, hstep]
    have hmap : rest.map (fun n => (matchRegion ω t e m).acc n t
          - (matchRegion ω t e m).acc n (t + 1))
        = rest.map (fun n => e.acc n t - e.acc n (t + 1)) := by
      refine List.map_congr_left fun n hn => ?_
      rw [f7 n t (fun hc => absurd hc.2 (by omega)),
        f7 n (t + 1) (fun hc => hm (hc.1 ▸ hn))]
    rw [hmap, List.map_cons, List.sum_cons]
    ring

/-- `match_step_simple` conserves the total vehicle count: the ground total
moves from row `t` to row `t+1` up to the new in-window `paxFlow` entries. -/
theorem match_inflight (ω : Nat → Bool) (s : Env) (B : Nat)
    (hB : ∀ o d, o < s.nregion → d < s.nregion →
        s.time + s.demandTime o d s.time < B)
    (hfa : ∀ n, n < s.nregion → s.acc n (s.time + 1) = 0)
    (hq : ∀ n, n < s.nregion → ∀ p ∈ s.queue n,
        p.origin < s.nregion ∧ p.destination < s.nregion)
    (hps : ∀ n, n < s.nregion → ∀ p ∈ s.passengers n s.time,
        p.origin < s.nregion ∧ p.destination < s.nregion) :
    rowSum s.nregion (match_step_simple ω s).acc (s.time + 1)
        + ledgerSum s.nregion s.time B (match_step_simple ω s).paxFlow
      = totalAcc s s.time + ledgerSum s.nregion s.time B s.paxFlow := by
  have hfold : rowSum s.nregion ((List.range s.nregion).foldl
          (matchRegion ω s.time)
          { s with reward := 0, ext_reward := fun _ => 0 }).acc (s.time + 1)
        + ledgerSum s.nregion s.time B ((List.range s.nregion).foldl
            (matchRegion ω s.time)
            { s with reward := 0, ext_reward := fun _ => 0 }).paxFlow
      = rowSum s.nregion s.acc (s.time + 1)
        + ledgerSum s.nregion s.time B s.paxFlow
        + ((List.range s.nregion).map fun n =>
            s.acc n s.time - s.acc n (s.time + 1)).sum :=
    matchFold_inflight ω s.time B s.nregion (List.range s.nregion)
      { s with reward := 0, ext_reward := fun _ => 0 } rfl (List.nodup_range _)
      (fun n hn => List.mem_range.mp hn) hB
      (fun n hn => hq n (List.mem_range.mp hn))
      (fun n hn => hps n (List.mem_range.mp hn))
  show rowSum s.nregion ((List.range s.nregion).foldl (matchRegion ω s.time)
        { s with reward := 0, ext_reward := fun _ => 0 }).acc (s.time + 1)
      + ledgerSum s.nregion s.time B ((List.range s.nregion).foldl
          (matchRegion ω s.time)
          { s with reward := 0, ext_reward := fun _ => 0 }).paxFlow = _
  rw [hfold]
  have hz : rowSum s.nregion s.acc (s.time + 1) = 0 := by
    unfold rowSum
    exact Finset.sum_eq_zero (fun n hn => hfa n (Finset.mem_range.mp hn))
  have hsum : ((List.range s.nregion).map fun n =>
        s.acc n s.time - s.acc n (s.time + 1)).sum = totalAcc s s.time := by
    have h1 : ((List.range s.nregion).map fun n =>
          s.acc n s.time - s.acc n (s.time + 1)).sum
        = ((List.range s.nregion).map fun n => s.acc n s.time).sum := by
      refine congrArg List.sum (List.map_congr_left fun n hn => ?_)
      rw [hfa n (List.mem_range.mp hn), sub_zero]
    have hfs : (List.range s.nregion).toFinset = Finset.range s.nregion := by
      ext x
      rw [List.mem_toFinset, List.mem_range, Finset.mem_range]
    rw [h1, ← List.sum_toFinset _ (List.nodup_range s.nregion), hfs]
    rfl
  rw [hz, hsum]
  ring

theorem map_fst_zip_sublist {α β : Type} :
    ∀ (l1 : List α) (l2 : List β), ((l1.zip l2).map Prod.fst).Sublist l1 := by
  intro l1
  induction l1 with
  | nil => intro l2; simp
  | cons x xs ih =>
    intro l2
    cases l2 with
    | nil => simp
    | cons y ys =>
      rw [List.zip_cons_cons, List.map_cons]
      exact List.Sublist.cons₂ x (ih ys)

/-- The pre-loop copy of `acc[.][t]` into `acc[.][t+1]`: rows other than
`t+1` are untouched, and every copied cell holds the row-`t` value. -/
theorem accCopy_eval (t : Nat) :
    ∀ (ns : List Nat) (f : Nat → Nat → ℚ),
      (∀ n τ, τ ≠ t + 1 →
        (ns.foldl (fun g i => upd2 g i (t + 1) (g i t)) f) n τ = f n τ)
      ∧ (∀ n, n ∉ ns → ∀ τ,
        (ns.foldl (fun g i => upd2 g i (t + 1) (g i t)) f) n τ = f n τ)
      ∧ (∀ n, n ∈ ns →
        (ns.foldl (fun g i => upd2 g i (t + 1) (g i t)) f) n (t + 1) = f n t) := by
  intro ns
  induction ns with
  | nil => intro f; exact ⟨fun _ _ _ => rfl, fun _ _ _ => rfl,
      fun n hn => absurd hn (List.not_mem_nil n)⟩
  | cons m rest ih =>
    intro f
    rw [List.foldl_cons]
    obtain ⟨ih1, ih2, ih3⟩ := ih (upd2 f m (t + 1) (f m t))
    refine ⟨?_, ?_, ?_⟩
    · intro n τ hτ
      rw [ih1 n τ hτ, upd2_ne _ _ _ _ _ _ (fun h => hτ h.2)]
    · intro n hn τ
      have hnm : n ≠ m := fun h => hn (h ▸ List.mem_cons_self m rest)
      have hnr : n ∉ rest := fun h => hn (List.mem_cons_of_mem m h)
      rw [ih2 n hnr τ, upd2_ne _ _ _ _ _ _ (fun h => hnm h.1)]
    · intro n hn
      rcases List.mem_cons.mp hn with h | h
      · subst h
        by_cases hr : n ∈ rest
        · rw [ih3 n hr, upd2_ne _ _ _ _ _ _ (fun h => absurd h.2 (by omega))]
        · rw [ih2 n hr (t + 1), upd2_same]
      · rw [ih3 n h, upd2_ne _ _ _ _ _ _ (fun h2 => absurd h2.2 (by omega))]

theorem paxEdge_frame (t : Nat) (st : Env) (e : Nat × Nat) (a : ℚ) :
    (paxEdge t st e a).nregion = st.nregion
    ∧ (paxEdge t st e a).time = st.time
    ∧ (paxEdge t st e a).rebFlow = st.rebFlow
    ∧ (paxEdge t st e a).rebTime = st.rebTime
    ∧ (paxEdge t st e a).demandTime = st.demandTime
    ∧ (paxEdge t st e a).hasDemand = st.hasDemand := by
  unfold paxEdge
  split
  · exact ⟨rfl, rfl, rfl, rfl, rfl, rfl⟩
  · exact ⟨rfl, rfl, rfl, rfl, rfl, rfl⟩

/-- One `pax_step` edge either skips, or moves the clipped action from the
source's `acc[.][t+1]` cell into a `paxFlow` entry at key
`t + demandTime[i][j][t]` (an overwriting assignment). -/
theorem paxEdge_proj (t : Nat) (st : Env) (e : Nat × Nat) (a : ℚ) :
    paxEdge t st e a = st
    ∨ ((paxEdge t st e a).acc
          = upd2 st.acc e.1 (t + 1)
              (st.acc e.1 (t + 1) - min (st.acc e.1 (t + 1)) a)
        ∧ (paxEdge t st e a).paxFlow
          = updE st.paxFlow e (t + st.demandTime e.1 e.2 t)
              (min (st.acc e.1 (t + 1)) a)) := by
  unfold paxEdge
  split
  · left; rfl
  · right; exact ⟨rfl, rfl⟩

/-- The `pax_step` edge loop conserves ground vehicles at row `t+1` plus the
in-window `paxFlow` in-flight sum, provided the written ledger keys are
fresh. -/
theorem paxFold_inflight (t B N : Nat) :
    ∀ (l : List ((Nat × Nat) × ℚ)) (st : Env),
      st.nregion = N →
      ((l.map Prod.fst).Nodup) →
      (∀ ea ∈ l, ea.1.1 < N ∧ ea.1.2 < N) →
      (∀ ea ∈ l, t + st.demandTime ea.1.1 ea.1.2 t < B
          ∧ st.paxFlow ea.1 (t + st.demandTime ea.1.1 ea.1.2 t) = 0) →
      rowSum N (l.foldl (fun s2 ea => paxEdge t s2 ea.1 ea.2) st).acc (t + 1)
          + ledgerSum N t B
              (l.foldl (fun s2 ea => paxEdge t s2 ea.1 ea.2) st).paxFlow
        = rowSum N st.acc (t + 1) + ledgerSum N t B st.paxFlow
      ∧ (l.foldl (fun s2 ea => paxEdge t s2 ea.1 ea.2) st).rebFlow = st.rebFlow
      ∧ (l.foldl (fun s2 ea => paxEdge t s2 ea.1 ea.2) st).nregion = st.nregion
      ∧ (l.foldl (fun s2 ea => paxEdge t s2 ea.1 ea.2) st).time = st.time
      ∧ (l.foldl (fun s2 ea => paxEdge t s2 ea.1 ea.2) st).rebTime = st.rebTime := by
  intro l
  induction l with
  | nil => intro st _ _ _ _; exact ⟨rfl, rfl, rfl, rfl, rfl⟩
  | cons ea rest ih =>
    intro st hN hnd hbd hfresh
    have hnd2 : (ea.1 :: rest.map Prod.fst).Nodup := hnd
    obtain ⟨hm, hndr⟩ := List.nodup_cons.mp hnd2
    rw [List.foldl_cons]
    obtain ⟨p1, p2, p3, p4, p5, p6⟩ := paxEdge_frame t st ea.1 ea.2
    have hbd0 := hbd ea (List.mem_cons_self ea rest)
    have hfresh0 := hfresh ea (List.mem_cons_self ea rest)
    have hstep : rowSum N (paxEdge t st ea.1 ea.2).acc (t + 1)
          + ledgerSum N t B (paxEdge t st ea.1 ea.2).paxFlow
        = rowSum N st.acc (t + 1) + ledgerSum N t B st.paxFlow := by
      rcases paxEdge_proj t st ea.1 ea.2 with h | ⟨h1, h2⟩
      · rw [h]
      · rw [h1, h2,
          rowSum_upd2_same N st.acc ea.1.1 (t + 1) _ hbd0.1,
          ledgerSum_updE_mem N t B st.paxFlow ea.1 _ _ hbd0.1 hbd0.2
            (Nat.le_add_right t _) hfresh0.1, hfresh0.2]
        ring
    have hpaxrest : ∀ ea2 ∈ rest,
        (paxEdge t st ea.1 ea.2).paxFlow ea2.1
            (t + (paxEdge t st ea.1 ea.2).demandTime ea2.1.1 ea2.1.2 t)
          = 0 := by
      intro ea2 hm2
      have hne : ea2.1 ≠ ea.1 := by
        intro hc
        exact hm (hc ▸ List.mem_map_of_mem Prod.fst hm2)
      rw [p5]
      rcases paxEdge_proj t st ea.1 ea.2 with h | ⟨-, h2⟩
      · rw [h]
        exact (hfresh ea2 (List.mem_cons_of_mem ea hm2)).2
      · rw [h2, updE_ne _ _ _ _ _ _ (fun hc => hne hc.1)]
        exact (hfresh ea2 (List.mem_cons_of_mem ea hm2)).2
    obtain ⟨q1, q2, q3, q4, q5⟩ := ih (paxEdge t st ea.1 ea.2)
      (p1.trans hN) hndr (fun ea2 hm2 => hbd ea2 (List.mem_cons_of_mem ea hm2))
      (fun ea2 hm2 => ⟨by
          rw [p5]
          exact (hfresh ea2 (List.mem_cons_of_mem ea hm2)).1,
        hpaxrest ea2 hm2⟩)
    exact ⟨q1.trans hstep, q2.trans p3, q3.trans p1, q4.trans p2, q5.trans p4⟩

/-- `pax_step` conserves the total vehicle count: the ground total of row `t`
is copied to row `t+1` and then split between `acc[.][t+1]` and new
in-window `paxFlow` entries. -/
theorem pax_inflight (s : Env) (E : List (Nat × Nat)) (act : List ℚ) (B : Nat)
    (hnd : E.Nodup)
    (hE1 : ∀ e ∈ E, e.1 < s.nregion ∧ e.2 < s.nregion)
    (hBd : ∀ o d, o < s.nregion → d < s.nregion →
        s.time + s.demandTime o d s.time < B)
    (hfp : ∀ i j, i < s.nregion → j < s.nregion →
        s.paxFlow (i, j) (s.time + s.demandTime i j s.time) = 0) :
    rowSum s.nregion (pax_step s E act).acc (s.time + 1)
        + ledgerSum s.nregion s.time B (pax_step s E act).paxFlow
      = totalAcc s s.time + ledgerSum s.nregion s.time B s.paxFlow
    ∧ (pax_step s E act).rebFlow = s.rebFlow
    ∧ (pax_step s E act).nregion = s.nregion
    ∧ (pax_step s E act).time = s.time
    ∧ (pax_step s E act).rebTime = s.rebTime := by
  obtain ⟨c1, c2, c3⟩ := accCopy_eval s.time (List.range s.nregion) s.acc
  have hndz : ((E.zip act).map Prod.fst).Nodup :=
    (map_fst_zip_sublist E act).nodup hnd
  have hbdz : ∀ ea ∈ E.zip act, ea.1.1 < s.nregion ∧ ea.1.2 < s.nregion :=
    fun ea hm => hE1 ea.1 (List.of_mem_zip hm).1
  obtain ⟨q1, q2, q3, q4, q5⟩ := paxFold_inflight s.time B s.nregion (E.zip act)
    { s with
      reward := 0, ext_reward := fun _ => 0,
      acc := (List.range s.nregion).foldl
        (fun f i => upd2 f i (s.time + 1) (f i s.time)) s.acc,
      info_served_demand := 0, info_operating_cost := 0,
      info_revenue := 0, info_rebalancing_cost := 0 }
    rfl hndz hbdz
    (fun ea hm => ⟨hBd ea.1.1 ea.1.2 (hbdz ea hm).1 (hbdz ea hm).2,
      hfp ea.1.1 ea.1.2 (hbdz ea hm).1 (hbdz ea hm).2⟩)
  refine ⟨?_, q2, q3, q4, q5⟩
  rw [show (pax_step s E act) = (E.zip act).foldl
      (fun s2 ea => paxEdge s.time s2 ea.1 ea.2)
      { s with
        reward := 0, ext_reward := fun _ => 0,
        acc := (List.range s.nregion).foldl
          (fun f i => upd2 f i (s.time + 1) (f i s.time)) s.acc,
        info_served_demand := 0, info_operating_cost := 0,
        info_revenue := 0, info_rebalancing_cost := 0 } from rfl]
  rw [q1]
  have hrow : rowSum s.nregion ((List.range s.nregion).foldl
        (fun f i => upd2 f i (s.time + 1) (f i s.time)) s.acc) (s.time + 1)
      = totalAcc s s.time := by
    unfold rowSum totalAcc rowSum
    refine Finset.sum_congr rfl fun n hn => ?_
    exact c3 n (List.mem_range.mpr (Finset.mem_range.mp hn))
  rw [hrow]

/-- The rebalancing edge loop conserves ground vehicles at row `t+1` plus the
in-window `rebFlow` in-flight sum, provided the overwritten ledger keys are
fresh; rows of non-graph pairs are untouched. -/
theorem rebPhase_inflight (t B N : Nat) :
    ∀ (l : List ((Nat × Nat) × ℚ)) (st : Env),
      st.nregion = N →
      ((l.map Prod.fst).Nodup) →
      (∀ ea ∈ l, isGEdge N ea.1 →
        t + st.rebTime ea.1.1 ea.1.2 t < B
          ∧ st.rebFlow ea.1 (t + st.rebTime ea.1.1 ea.1.2 t) = 0) →
      rowSum N (rebPhase t st l).acc (t + 1)
          + ledgerSum N t B (rebPhase t st l).rebFlow
        = rowSum N st.acc (t + 1) + ledgerSum N t B st.rebFlow
      ∧ (∀ e, ¬ isGEdge N e → (rebPhase t st l).rebFlow e = st.rebFlow e) := by
  intro l
  induction l with
  | nil => intro st _ _ _; exact ⟨rfl, fun _ _ => rfl⟩
  | cons ea rest ih =>
    intro st hN hnd hfresh
    have hnd2 : (ea.1 :: rest.map Prod.fst).Nodup := hnd
    obtain ⟨hm, hndr⟩ := List.nodup_cons.mp hnd2
    rw [rebPhase_cons]
    obtain ⟨f1, f2, f3, f4, f5, f6, f7⟩ := rebEdge_frame t st ea.1 ea.2
    by_cases hg : isGEdge N ea.1
    · have hgs : isGEdge st.nregion ea.1 := by rw [hN]; exact hg
      have hfr0 := hfresh ea (List.mem_cons_self ea rest) hg
      have hstep : rowSum N (rebEdge t st ea.1 ea.2).acc (t + 1)
            + ledgerSum N t B (rebEdge t st ea.1 ea.2).rebFlow
          = rowSum N st.acc (t + 1) + ledgerSum N t B st.rebFlow := by
        rw [rebEdge_acc t st ea.1 ea.2 hgs, rebEdge_rebFlow t st ea.1 ea.2 hgs,
          rowSum_upd2_same N st.acc ea.1.1 (t + 1) _ hg.2.1,
          ledgerSum_updE_mem N t B st.rebFlow ea.1 _ _ hg.2.1 hg.2.2
            (Nat.le_add_right t _) hfr0.1, hfr0.2]
        ring
      have hfr : ∀ ea2 ∈ rest, isGEdge N ea2.1 →
          t + (rebEdge t st ea.1 ea.2).rebTime ea2.1.1 ea2.1.2 t < B
            ∧ (rebEdge t st ea.1 ea.2).rebFlow ea2.1
                (t + (rebEdge t st ea.1 ea.2).rebTime ea2.1.1 ea2.1.2 t) = 0 := by
        intro ea2 hm2 hg2
        have hne : ea2.1 ≠ ea.1 := fun hc =>
          hm (hc ▸ List.mem_map_of_mem Prod.fst hm2)
        rw [f2, rebEdge_rebFlow t st ea.1 ea.2 hgs,
          updE_ne _ _ _ _ _ _ (fun hc => hne hc.1)]
        exact hfresh ea2 (List.mem_cons_of_mem ea hm2) hg2
      obtain ⟨q1, q2⟩ := ih (rebEdge t st ea.1 ea.2) (f1.trans hN) hndr hfr
      refine ⟨q1.trans hstep, ?_⟩
      intro e he
      have hne : e ≠ ea.1 := fun hc => he (hc ▸ hg)
      rw [q2 e he, rebEdge_rebFlow t st ea.1 ea.2 hgs]
      funext k
      exact updE_ne _ _ _ _ _ _ (fun hc => hne hc.1)
    · have hgs : ¬ isGEdge st.nregion ea.1 := by rw [hN]; exact hg
      rw [rebEdge_skip t st ea.1 ea.2 hgs]
      exact ih st hN hndr
        (fun ea2 hm2 => hfresh ea2 (List.mem_cons_of_mem ea hm2))

/-- `reb_step` conserves the total vehicle count: requested flows move from
`acc[.][t+1]` into fresh in-window `rebFlow` entries, the entries recorded
for arrival time `t` move from the ledgers into `acc[.][t+1]`, and the
in-flight window advances with the clock. -/
theorem reb_inflight (s : Env) (E : List (Nat × Nat)) (act : List ℚ) (B : Nat)
    (hnd : E.Nodup)
    (hE1 : ∀ e ∈ E, e.1 < s.nregion ∧ e.2 < s.nregion)
    (hE2 : ∀ i, i < s.nregion → ∀ j, j < s.nregion → (i, j) ∈ E)
    (hBr : ∀ i j, i < s.nregion → j < s.nregion →
        s.time + s.rebTime i j s.time < B)
    (hfr : ∀ i j, i < s.nregion → j < s.nregion → i ≠ j →
        s.rebFlow (i, j) (s.time + s.rebTime i j s.time) = 0)
    (hself : ∀ e : Nat × Nat, e.1 < s.nregion → e.2 < s.nregion →
        ¬ isGEdge s.nregion e → s.rebFlow e s.time = 0)
    (htB : s.time < B) :
    totalAcc (reb_step s E act) (s.time + 1)
        + inflight (reb_step s E act) (s.time + 1) B
      = totalAcc s (s.time + 1) + inflight s s.time B := by
  set s0 : Env := { s with reward := 0, ext_reward := fun _ => 0 } with hs0
  have hndz : ((E.zip act).map Prod.fst).Nodup :=
    (map_fst_zip_sublist E act).nodup hnd
  obtain ⟨P1, P2⟩ := rebPhase_inflight s.time B s.nregion (E.zip act) s0 rfl hndz
    (fun ea hm hg => ⟨hBr ea.1.1 ea.1.2 hg.2.1 hg.2.2,
      hfr ea.1.1 ea.1.2 hg.2.1 hg.2.2 hg.1⟩)
  set s1 := rebPhase s.time s0 (E.zip act) with hs1
  have hfr1 := rebPhase_frame s.time (E.zip act) s0
  have hN1x : s1.nregion = s.nregion := hfr1.1
  have hpax1 : s1.paxFlow = s.paxFlow := hfr1.2.2.2.1
  set s2 := E.foldl (rebArrive s.time) s1 with hs2
  have hfr2 := rebArriveFold_frame s.time E s1
  have hnreg : (reb_step s E act).nregion = s.nregion := (hfr2.1).trans hN1x
  have hrow2 : rowSum s.nregion s2.acc (s.time + 1)
      = rowSum s.nregion s1.acc (s.time + 1)
        + ((Finset.range s.nregion) ×ˢ (Finset.range s.nregion)).sum
            (fun e => s1.rebFlow e s.time)
        + ((Finset.range s.nregion) ×ˢ (Finset.range s.nregion)).sum
            (fun e => s.paxFlow e s.time) := by
    have h1 : ∀ j ∈ Finset.range s.nregion,
        s2.acc j (s.time + 1)
          = s1.acc j (s.time + 1)
            + ((Finset.range s.nregion) ×ˢ (Finset.range s.nregion)).sum
                (fun e => if e.2 = j then
                  (if isGEdge s1.nregion e then s1.rebFlow e s.time else 0)
                    + s1.paxFlow e s.time else 0) := by
      intro j hj
      rw [hs2, rebArriveFold_acc s.time E s1 j,
        list_sum_pairs s.nregion E _ hE1 hE2 hnd]
    have h3 : ((Finset.range s.nregion) ×ˢ (Finset.range s.nregion)).sum
        (fun e => (Finset.range s.nregion).sum fun j => if e.2 = j then
            (if isGEdge s1.nregion e then s1.rebFlow e s.time else 0)
              + s1.paxFlow e s.time else 0)
      = ((Finset.range s.nregion) ×ˢ (Finset.range s.nregion)).sum
          (fun e => s1.rebFlow e s.time)
        + ((Finset.range s.nregion) ×ˢ (Finset.range s.nregion)).sum
            (fun e => s.paxFlow e s.time) := by
      rw [← Finset.sum_add_distrib]
      refine Finset.sum_congr rfl fun e he => ?_
      rw [Finset.sum_ite_eq (Finset.range s.nregion) e.2 _,
        if_pos (Finset.mem_product.mp he).2]
      congr 1
      · by_cases hg : isGEdge s.nregion e
        · rw [if_pos (show isGEdge s1.nregion e by rw [hN1x]; exact hg)]
        · rw [if_neg (show ¬ isGEdge s1.nregion e by rw [hN1x]; exact hg)]
          have hz := hself e (Finset.mem_range.mp (Finset.mem_product.mp he).1)
            (Finset.mem_range.mp (Finset.mem_product.mp he).2) hg
          rw [congrFun (P2 e hg) s.time]
          exact hz.symm
      · exact congrFun (congrFun hpax1 e) s.time
    unfold rowSum
    rw [Finset.sum_congr rfl h1, Finset.sum_add_distrib, Finset.sum_comm, h3]
    ring
  have hb_reb : ledgerSum s.nregion s.time B s1.rebFlow
      = ((Finset.range s.nregion) ×ˢ (Finset.range s.nregion)).sum
          (fun e => s1.rebFlow e s.time)
        + ledgerSum s.nregion (s.time + 1) B s1.rebFlow :=
    ledgerSum_bot s.nregion s.time B s1.rebFlow htB
  have hb_pax : ledgerSum s.nregion s.time B s.paxFlow
      = ((Finset.range s.nregion) ×ˢ (Finset.range s.nregion)).sum
          (fun e => s.paxFlow e s.time)
        + ledgerSum s.nregion (s.time + 1) B s.paxFlow :=
    ledgerSum_bot s.nregion s.time B s.paxFlow htB
  have P1x : rowSum s.nregion s1.acc (s.time + 1)
        + ledgerSum s.nregion s.time B s1.rebFlow
      = rowSum s.nregion s.acc (s.time + 1)
        + ledgerSum s.nregion s.time B s.rebFlow := P1
  have hTA : totalAcc (reb_step s E act) (s.time + 1)
      = rowSum s.nregion s2.acc (s.time + 1) := by
    unfold totalAcc
    rw [hnreg, show (reb_step s E act).acc = s2.acc from rfl]
  have hIF : inflight (reb_step s E act) (s.time + 1) B
      = ledgerSum s.nregion (s.time + 1) B s1.rebFlow
        + ledgerSum s.nregion (s.time + 1) B s.paxFlow := by
    unfold inflight
    rw [hnreg, show (reb_step s E act).rebFlow = s2.rebFlow from rfl,
      show (reb_step s E act).paxFlow = s2.paxFlow from rfl,
      hfr2.2.1, hfr2.2.2.1, hpax1]
  rw [hTA, hIF,
    show totalAcc s (s.time + 1) = rowSum s.nregion s.acc (s.time + 1) from rfl,
    show inflight s s.time B = ledgerSum s.nregion s.time B s.rebFlow
      + ledgerSum s.nregion s.time B s.paxFlow from rfl]
  linarith [hrow2, hb_reb, hb_pax, P1x]

/-- C1.  Both per-step pipelines — `match_step_simple` followed by
`reb_step`, and `pax_step` followed by `reb_step` — conserve the total
vehicle count: the ground total `acc[*][t+1]` after the phases plus the
in-flight ledger entries with arrival keys in the advanced window equals the
ground total `acc[*][t]` plus the in-flight entries before the phases.
Hypotheses: the edge list enumerates every ordered pair of regions exactly
once; the windows stay inside `B`; the pre-step `acc[.][t+1]` row is still
unset (0); stored passengers carry in-range regions; and the ledger keys
about to be written by the overwriting `=` assignments are still unset. -/
theorem vehicle_conservation (ω : Nat → Bool) (s : Env)
    (E : List (Nat × Nat)) (ract pact : List ℚ) (B : Nat)
    (hnd : E.Nodup)
    (hE1 : ∀ e ∈ E, e.1 < s.nregion ∧ e.2 < s.nregion)
    (hE2 : ∀ i, i < s.nregion → ∀ j, j < s.nregion → (i, j) ∈ E)
    (hBd : ∀ o d, o < s.nregion → d < s.nregion →
        s.time + s.demandTime o d s.time < B)
    (hBr : ∀ i j, i < s.nregion → j < s.nregion →
        s.time + s.rebTime i j s.time < B)
    (htB : s.time < B)
    (hfa : ∀ n, n < s.nregion → s.acc n (s.time + 1) = 0)
    (hq : ∀ n, n < s.nregion → ∀ p ∈ s.queue n,
        p.origin < s.nregion ∧ p.destination < s.nregion)
    (hps : ∀ n, n < s.nregion → ∀ p ∈ s.passengers n s.time,
        p.origin < s.nregion ∧ p.destination < s.nregion)
    (hfr : ∀ i j, i < s.nregion → j < s.nregion → i ≠ j →
        s.rebFlow (i, j) (s.time + s.rebTime i j s.time) = 0)
    (hself : ∀ e : Nat × Nat, e.1 < s.nregion → e.2 < s.nregion →
        ¬ isGEdge s.nregion e → s.rebFlow e s.time = 0)
    (hfp : ∀ i j, i < s.nregion → j < s.nregion →
        s.paxFlow (i, j) (s.time + s.demandTime i j s.time) = 0) :
    totalAcc (reb_step (match_step_simple ω s) E ract) (s.time + 1)
        + inflight (reb_step (match_step_simple ω s) E ract) (s.time + 1) B
      = totalAcc s s.time + inflight s s.time B
    ∧ totalAcc (reb_step (pax_step s E pact) E ract) (s.time + 1)
        + inflight (reb_step (pax_step s E pact) E ract) (s.time + 1) B
      = totalAcc s s.time + inflight s s.time B := by
  constructor
  · set s3 := match_step_simple ω s with hs3
    obtain ⟨m1, m2, m3, m4, m5, m6⟩ : s3.nregion = s.nregion
        ∧ s3.time = s.time ∧ s3.rebFlow = s.rebFlow ∧ s3.rebTime = s.rebTime
        ∧ s3.demandTime = s.demandTime
        ∧ (∀ n τ, τ ≠ s.time + 1 → s3.acc n τ = s.acc n τ) :=
      matchFold_frame3 ω s.time (List.range s.nregion)
        { s with reward := 0, ext_reward := fun _ => 0 }
    have hmatch : rowSum s.nregion s3.acc (s.time + 1)
          + ledgerSum s.nregion s.time B s3.paxFlow
        = totalAcc s s.time + ledgerSum s.nregion s.time B s.paxFlow :=
      match_inflight ω s B hBd hfa hq hps
    have hreb := reb_inflight s3 E ract B hnd
      (by rw [m1]; exact hE1)
      (by rw [m1]; exact hE2)
      (by rw [m1, m2, m4]; exact hBr)
      (by rw [m1, m2, m3, m4]; exact hfr)
      (by rw [m1, m2, m3]; exact hself)
      (by rw [m2]; exact htB)
    rw [m2] at hreb
    rw [hreb]
    have h4 : totalAcc s3 (s.time + 1) = rowSum s.nregion s3.acc (s.time + 1) := by
      unfold totalAcc
      rw [m1]
    have h5 : inflight s3 s.time B
        = ledgerSum s.nregion s.time B s.rebFlow
          + ledgerSum s.nregion s.time B s3.paxFlow := by
      unfold inflight
      rw [m1, m3]
    rw [h4, h5,
      show inflight s s.time B = ledgerSum s.nregion s.time B s.rebFlow
        + ledgerSum s.nregion s.time B s.paxFlow from rfl]
    linarith [hmatch]
  · set s4 := pax_step s E pact with hs4
    obtain ⟨hpax, n3, n1, n2, n4⟩ :
        (rowSum s.nregion s4.acc (s.time + 1)
            + ledgerSum s.nregion s.time B s4.paxFlow
          = totalAcc s s.time + ledgerSum s.nregion s.time B s.paxFlow)
        ∧ s4.rebFlow = s.rebFlow ∧ s4.nregion = s.nregion
        ∧ s4.time = s.time ∧ s4.rebTime = s.rebTime :=
      pax_inflight s E pact B hnd hE1 hBd hfp
    have hreb := reb_inflight s4 E ract B hnd
      (by rw [n1]; exact hE1)
      (by rw [n1]; exact hE2)
      (by rw [n1, n2, n4]; exact hBr)
      (by rw [n1, n2, n3, n4]; exact hfr)
      (by rw [n1, n2, n3]; exact hself)
      (by rw [n2]; exact htB)
    rw [n2] at hreb
    rw [hreb]
    have h4 : totalAcc s4 (s.time + 1) = rowSum s.nregion s4.acc (s.time + 1) := by
      unfold totalAcc
      rw [n1]
    have h5 : inflight s4 s.time B
        = ledgerSum s.nregion s.time B s.rebFlow
          + ledgerSum s.nregion s.time B s4.paxFlow := by
      unfold inflight
      rw [n1, n3]
    rw [h4, h5,
      show inflight s s.time B = ledgerSum s.nregion s.time B s.rebFlow
        + ledgerSum s.nregion s.time B s.paxFlow from rfl]
    linarith [hpax]

/-- Witness for C1 on the toy 2-region environment, with the dedup edge list
and window `B = 2`. -/
theorem vehicle_conservation_witness :
    totalAcc (reb_step (match_step_simple (fun _ => true) wEnv)
          (amodEdges 2) [1, 1, 1, 1]) (wEnv.time + 1)
        + inflight (reb_step (match_step_simple (fun _ => true) wEnv)
            (amodEdges 2) [1, 1, 1, 1]) (wEnv.time + 1) 2
      = totalAcc wEnv wEnv.time + inflight wEnv wEnv.time 2 :=
  (vehicle_conservation (fun _ => true) wEnv (amodEdges 2) [1, 1, 1, 1]
    [1, 1, 1, 1] 2
    (by decide) (by decide) (by decide)
    (by intro o d _ _; exact Nat.one_lt_two)
    (by intro i j _ _; exact Nat.one_lt_two)
    (by decide) (by decide) (by decide) (by decide)
    (by intro i j _ _ _; exact rfl)
    (by intro e _ _ _; exact rfl)
    (by intro i j _ _; exact rfl)).1

set_option maxHeartbeats 2000000 in
/-- C1 counterexample: at time 1 the state holds one ground vehicle
(`acc[0][2] = 1`) and two vehicles in flight (`rebFlow[(0,1)][2] = 2`), a
total of 3; a `reb_step` requesting one unit on (0,1) *overwrites* the
pending ledger entry (`rebFlow[(0,1)][t+rebTime] = flow` uses `=`, line
253), so the two in-flight vehicles vanish and the total drops to 1 —
conservation fails without the fresh-ledger-key proviso. -/
theorem vehicle_conservation_counterexample :
    totalAcc (reb_step cEnv1 (amodEdges 2) [1, 0, 0, 0]) (cEnv1.time + 1)
        + inflight (reb_step cEnv1 (amodEdges 2) [1, 0, 0, 0])
            (cEnv1.time + 1) 3
      = 1
    ∧ totalAcc cEnv1 (cEnv1.time + 1) + inflight cEnv1 cEnv1.time 3 = 3
    ∧ (1 : ℚ) ≠ 3 := by
  refine ⟨?_, ?_, by norm_num⟩ <;>
    norm_num [totalAcc, inflight, rowSum, ledgerSum, icoSum,
      Finset.sum_product, Finset.sum_Ico_eq_sum_range, Finset.sum_range_succ,
      Finset.sum_range_zero, reb_step, rebPhase, rebArrive, rebEdge, upd2,
      updE, amodEdges, amodEdgesRaw, adjacency, cEnv1, wEnv, isGEdge,
      List.dedup, List.pwFilter, List.range, List.range.loop, min_def]
